import Mathlib

/-!
# osbuild/initrd: the boot sequence of `initrd.go`

A shallow embedding of `src/initrd.go` (package `main`) and the properties of
its command-line parser, module loader, mounts and root transition.

* Go strings are modelled as lists of characters (`Str`); the text is the
  decoded UTF-8 content, compared code point by code point, which is the byte
  order of the encoded strings.
* The standard-library helpers the program calls (`strings.Fields`,
  `strings.HasPrefix`, `filepath.Join`, ...) are modelled from their documented
  behaviour on Unix.
* Every interaction with the operating system is an `Event` appended to a
  trace; the answers come from a `World`, an arbitrary oracle that may depend
  on everything that happened before.
-/

namespace Initrd

/-! ## Strings -/

/-- A Go `string`, as the sequence of its code points. -/
abbrev Str := List Char

/-- Go `unicode.IsSpace`: the Latin-1 spaces `\t \n \v \f \r`, space, U+0085, U+00A0 and
the code points with the Unicode White_Space property. -/
def isSpace (r : Char) : Bool :=
  let n := r.toNat
  (decide (0x09 ≤ n) && decide (n ≤ 0x0D)) || n == 0x20 || n == 0x85 || n == 0xA0 ||
  n == 0x1680 || (decide (0x2000 ≤ n) && decide (n ≤ 0x200A)) || n == 0x2028 ||
  n == 0x2029 || n == 0x202F || n == 0x205F || n == 0x3000

/-- Go `strings.Fields`: the maximal runs of non-space characters, in order. -/
def Fields (s : Str) : List Str :=
  (s.splitOnP isSpace).filter (fun t => !t.isEmpty)

/-- Go `strings.TrimSpace`: leading and trailing white space removed. -/
def TrimSpace (s : Str) : Str :=
  ((s.dropWhile isSpace).reverse.dropWhile isSpace).reverse

/-- Go `strings.HasPrefix`. -/
def HasPrefix (s pfx : Str) : Bool := pfx.isPrefixOf s

/-- Go `strings.HasSuffix`. -/
def HasSuffix (s sfx : Str) : Bool := sfx.isSuffixOf s

/-- Go `strings.TrimPrefix`: `s` without the leading `pfx`, or `s` itself when it does not
start with `pfx`. -/
def TrimPrefix (s pfx : Str) : Str :=
  if HasPrefix s pfx then s.drop pfx.length else s

/-! ## Command-line parser (`cmdlineGet`, `cmdlineGetMounts`) -/

/-- The `for _, param := range strings.Fields(cmdline)` loop of `cmdlineGet`. -/
def cmdlineGetLoop (key : Str) : List Str → Str × Bool
  | [] => ([], false)
  | param :: rest =>
    if param = key then ([], true)
    else if HasPrefix param (key ++ ['=']) then (TrimPrefix param (key ++ ['=']), true)
    else cmdlineGetLoop key rest

/-- The function `cmdlineGet(cmdline, key string) (string, bool)`. -/
def cmdlineGet (cmdline key : Str) : Str × Bool :=
  cmdlineGetLoop key (Fields cmdline)

/-- The anonymous struct of `cmdlineGetMounts`: a share tag and its read-only mark. -/
structure MountEntry where
  tag : Str
  readOnly : Bool
deriving DecidableEq, Repr

/-- The loop of `cmdlineGetMounts`, with the slice `mounts` it appends to. -/
def cmdlineGetMountsLoop : List Str → List MountEntry → List MountEntry
  | [], mounts => mounts
  | param :: rest, mounts =>
    if HasPrefix param "mount=".toList then
      let tag := TrimPrefix param "mount=".toList
      if tag ≠ [] then cmdlineGetMountsLoop rest (mounts ++ [⟨tag, false⟩])
      else cmdlineGetMountsLoop rest mounts
    else if HasPrefix param "mount-ro=".toList then
      let tag := TrimPrefix param "mount-ro=".toList
      if tag ≠ [] then cmdlineGetMountsLoop rest (mounts ++ [⟨tag, true⟩])
      else cmdlineGetMountsLoop rest mounts
    else cmdlineGetMountsLoop rest mounts

/-- The function `cmdlineGetMounts(cmdline string)`. -/
def cmdlineGetMounts (cmdline : Str) : List MountEntry :=
  cmdlineGetMountsLoop (Fields cmdline) []

/-- The specification's reading of one directive: the tag of a token `<pfx><tag>` with a
non-empty tag, and nothing for any other token. -/
def directiveTag (pfx t : Str) : Option Str :=
  if t.take pfx.length = pfx ∧ t.drop pfx.length ≠ [] then some (t.drop pfx.length) else none

/-- The specification's reading of one token: `mount=<tag>` is a read-write entry,
`mount-ro=<tag>` a read-only entry, anything else (an empty tag included) is no entry. -/
def mountDirective (t : Str) : Option MountEntry :=
  match directiveTag "mount=".toList t with
  | some tag => some ⟨tag, false⟩
  | none =>
    match directiveTag "mount-ro=".toList t with
    | some tag => some ⟨tag, true⟩
    | none => none

/-- The root share tag `doInit` resolves (lines 283-286): the `rootfs` value when the key is
present with a non-empty value, the default `rootfs` otherwise. -/
def resolveRootfsTag (cmdline : Str) : Str :=
  let r := cmdlineGet cmdline "rootfs".toList
  if r.2 && decide (r.1 ≠ []) then r.1 else "rootfs".toList

/-- The init program `doInit` resolves (lines 320-323), default `/bin/sh`. -/
def resolveInitProgram (cmdline : Str) : Str :=
  let r := cmdlineGet cmdline "init".toList
  if r.2 && decide (r.1 ≠ []) then r.1 else "/bin/sh".toList

/-! ## Paths (`path/filepath` on Unix) -/

/-- The elements of a path: the pieces between the separators `/`. -/
def pathElems (path : Str) : List Str := path.splitOnP (fun c => c == '/')

/-- One step of `filepath.Clean` on the elements written so far (`out`, last element first):
an empty element and `.` are dropped, `..` removes the last real element when there is one,
is kept in front of a relative path and dropped at the root, any other element is kept. -/
def cleanStep (rooted : Bool) (out : List Str) (elem : Str) : List Str :=
  if elem = [] ∨ elem = ['.'] then out
  else if elem = ['.', '.'] then
    match out with
    | top :: below =>
      if top ≠ ['.', '.'] then below else if rooted then out else elem :: out
    | [] => if rooted then out else [elem]
  else elem :: out

/-- Go `filepath.Clean` on Unix: the shortest equivalent path by purely lexical processing. -/
def Clean (path : Str) : Str :=
  if path = [] then ['.']
  else
    let rooted := path.head? == some '/'
    let out := (pathElems path).foldl (cleanStep rooted) []
    let body := List.intercalate ['/'] out.reverse
    if rooted then '/' :: body else if body = [] then ['.'] else body

/-- Go `filepath.Join` of two elements: empty elements are ignored, the rest is joined with
`/` and cleaned. -/
def Join (a b : Str) : Str :=
  if a ≠ [] then Clean (a ++ '/' :: b) else if b ≠ [] then Clean b else []

/-- Go `filepath.Dir`: all but the last element of the path, cleaned. -/
def Dir (path : Str) : Str :=
  Clean (path.reverse.dropWhile (fun c => c != '/')).reverse

/-- Go `filepath.Base`: the last element of the path, trailing slashes removed first. -/
def Base (path : Str) : Str :=
  if path = [] then ['.']
  else
    let stripped := (path.reverse.dropWhile (fun c => c == '/')).reverse
    let last := (stripped.reverse.takeWhile (fun c => c != '/')).reverse
    if last = [] then ['/'] else last

/-- Go's `<` on strings. -/
def strLt : Str → Str → Bool
  | [], [] => false
  | [], _ :: _ => true
  | _ :: _, [] => false
  | a :: as, b :: bs =>
    if a.toNat < b.toNat then true else if b.toNat < a.toNat then false else strLt as bs

/-- The order `sort.Strings` sorts by: `a` comes no later than `b`. -/
def strLe (a b : Str) : Prop := strLt b a = false

instance : DecidableRel strLe := fun a b => inferInstanceAs (Decidable (strLt b a = false))

/-- Go `sort.Strings`: the list in increasing order. -/
def sortStrings (xs : List Str) : List Str := xs.insertionSort strLe

/-! ## Errors and system constants -/

/-- A `syscall.Errno`. -/
abbrev Errno := Nat

def ENOENT : Errno := 2
def EEXIST : Errno := 17
def ENOTEMPTY : Errno := 39

/-- Go `os.IsNotExist` on an error value (`none` is `nil`). -/
def IsNotExist (err : Option Errno) : Bool := err == some ENOENT

/-- Go `os.IsExist` on an error value (`none` is `nil`). -/
def IsExist (err : Option Errno) : Bool := err == some EEXIST || err == some ENOTEMPTY

def MS_RDONLY : Nat := 1
def MS_NOSUID : Nat := 2
def MS_NODEV : Nat := 4
def MS_NOEXEC : Nat := 8
def MS_MOVE : Nat := 8192
def S_IFCHR : Nat := 0x2000

/-- The function `unix.Mkdev(major, minor uint32) uint64`. -/
def Mkdev (major minor : Nat) : Nat :=
  (((major &&& 0x00000fff) <<< 8) ||| ((major &&& 0xfffff000) <<< 32) |||
    (minor &&& 0x000000ff) ||| ((minor &&& 0xffffff00) <<< 12)) % 2 ^ 64

/-! ## Events, the world and the `Init` monad -/

/-- The type of a directory entry (`fs.DirEntry.Type`). -/
inductive FileType
  | regular | dir | symlink | namedPipe | socket | device | charDevice | irregular
deriving DecidableEq, Repr

/-- An `os.DirEntry`: the name of the entry and its type. -/
structure DirEntry where
  name : Str
  type : FileType
deriving DecidableEq, Repr

/-- The method `DirEntry.IsDir`. -/
def DirEntry.IsDir (e : DirEntry) : Bool := e.type == FileType.dir

/-- The result of a call that returns a value or an error. -/
inductive Res (α : Type)
  | ok (a : α)
  | err (e : Errno)
deriving DecidableEq, Repr

/-- The `error` result of such a call (`none` is `nil`). -/
def Res.toErr {α : Type} : Res α → Option Errno
  | Res.ok _ => none
  | Res.err e => some e

/-- The result of `os.ReadFile`: the contents, an error, or no result at all when the read
never returns (a FIFO without a writer, a device that never reaches end of file). -/
inductive FileRead
  | ok (data : Str)
  | err (e : Errno)
  | blocks
deriving DecidableEq, Repr

/-- An argument of a `Printf` call. -/
inductive Arg
  | str (s : Str)
  | bool (b : Bool)
  | err (e : Errno)
deriving DecidableEq, Repr

/-- One interaction with the operating system, with the answer the program got
(`none` is a `nil` error). For `os.Stat` the answer is the type of the file found, or an
error. -/
inductive Event
  | stat (path : Str) (info : Res FileType)
  | mkdirAll (path : Str) (perm : Nat) (err : Option Errno)
  | mount (source target fstype : Str) (flags : Nat) (data : Str) (err : Option Errno)
  | unmount (target : Str) (flags : Nat) (err : Option Errno)
  | mknod (path : Str) (mode dev : Nat) (err : Option Errno)
  | symlink (oldname newname : Str) (err : Option Errno)
  | readFile (path : Str) (res : FileRead)
  | readDir (path : Str) (res : Res (List DirEntry))
  | initModule (image params : Str) (errno : Errno)
  | chdir (path : Str) (err : Option Errno)
  | openFile (path : Str) (err : Option Errno)
  | closeFile (path : Str)
  | chroot (path : Str) (err : Option Errno)
  | exec (argv0 : Str) (argv envv : List Str) (err : Option Errno)
  | stdout (format : Str) (args : List Arg)
  | stderr (format : Str) (args : List Arg)
deriving DecidableEq, Repr

/-- The operating system as the program sees it: the answer to every call, which may depend
on all the events that happened before. -/
structure World where
  stat : List Event → Str → Res FileType
  mkdirAll : List Event → Str → Nat → Option Errno
  mount : List Event → Str → Str → Str → Nat → Str → Option Errno
  unmount : List Event → Str → Nat → Option Errno
  mknod : List Event → Str → Nat → Nat → Option Errno
  symlink : List Event → Str → Str → Option Errno
  readFile : List Event → Str → FileRead
  readDir : List Event → Str → Res (List DirEntry)
  initModule : List Event → Str → Str → Errno
  chdir : List Event → Str → Option Errno
  openFile : List Event → Str → Option Errno
  chroot : List Event → Str → Option Errno
  exec : List Event → Str → List Str → List Str → Option Errno
  environ : List Event → List Str

/-- How a Go function ends: it returns a value with a `nil` error, it returns an error, the
runtime panics, or it never returns because a call it made never returns (`hang`). -/
inductive Outcome (α : Type)
  | ok (a : α)
  | error (e : Errno)
  | panic (msg : Str)
  | hang
deriving DecidableEq, Repr

/-- The run never returns. -/
def Outcome.isHang {α : Type} : Outcome α → Bool
  | Outcome.hang => true
  | _ => false

/-- The result of running a piece of the program: how it ended, the events it added to the
trace, and the value of the global `debug` afterwards. -/
structure Run (α : Type) where
  out : Outcome α
  events : List Event
  debug : Bool
deriving DecidableEq

/-- A piece of the program: given the world, the events so far and the global `debug`, it
runs to a `Run`. -/
def Init (α : Type) : Type := World → List Event → Bool → Run α

/-- Sequencing: the second part runs after the events of the first, unless the first returned
an error, panicked or never returned. -/
def Init.bind {α β : Type} (m : Init α) (f : α → Init β) : Init β := fun k h d =>
  match m k h d with
  | ⟨Outcome.ok a, evs, d1⟩ =>
    match f a k (h ++ evs) d1 with
    | ⟨out, evs2, d2⟩ => ⟨out, evs ++ evs2, d2⟩
  | ⟨Outcome.error e, evs, d1⟩ => ⟨Outcome.error e, evs, d1⟩
  | ⟨Outcome.panic msg, evs, d1⟩ => ⟨Outcome.panic msg, evs, d1⟩
  | ⟨Outcome.hang, evs, d1⟩ => ⟨Outcome.hang, evs, d1⟩

instance : Monad Init where
  pure a := fun _ _ d => ⟨Outcome.ok a, [], d⟩
  bind := Init.bind

/-- A call into the operating system: ask the world, record the event with its answer. -/
def call {ρ : Type} (reply : World → List Event → ρ) (ev : ρ → Event) : Init ρ :=
  fun k h d => ⟨Outcome.ok (reply k h), [ev (reply k h)], d⟩

/-- An effect without an answer the program looks at. -/
def emit (ev : Event) : Init Unit := fun _ _ d => ⟨Outcome.ok (), [ev], d⟩

/-- The statement `return err` with a non-nil error. -/
def fail {α : Type} (e : Errno) : Init α := fun _ _ d => ⟨Outcome.error e, [], d⟩

/-- A run-time panic. -/
def goPanic {α : Type} (msg : Str) : Init α := fun _ _ d => ⟨Outcome.panic msg, [], d⟩

/-- A call that never returns. -/
def goHang {α : Type} : Init α := fun _ _ d => ⟨Outcome.hang, [], d⟩

/-- The statement `if err != nil { return err }`. -/
def check : Option Errno → Init Unit
  | none => pure ()
  | some e => fail e

/-- The error a call `err := f()` yields: `nil` (`none`) when `f` returns normally. -/
def errorOf (m : Init Unit) : Init (Option Errno) := fun k h d =>
  match m k h d with
  | ⟨Outcome.ok _, evs, d1⟩ => ⟨Outcome.ok none, evs, d1⟩
  | ⟨Outcome.error e, evs, d1⟩ => ⟨Outcome.ok (some e), evs, d1⟩
  | ⟨Outcome.panic msg, evs, d1⟩ => ⟨Outcome.panic msg, evs, d1⟩
  | ⟨Outcome.hang, evs, d1⟩ => ⟨Outcome.hang, evs, d1⟩

/-- The statement `defer fin` in front of `body`: `fin` runs when `body` has ended, with a
value, an error or a panic, and the outcome is the one of `body`; it does not run when
`body` never returns. -/
def deferred {α : Type} (fin : Init Unit) (body : Init α) : Init α := fun k h d =>
  match body k h d with
  | ⟨out, evs, d1⟩ =>
    if out.isHang then ⟨out, evs, d1⟩
    else
      match fin k (h ++ evs) d1 with
      | ⟨_, evs2, d2⟩ => ⟨out, evs ++ evs2, d2⟩

/-- A statement `if c { m }`. -/
def doWhen (c : Bool) (m : Init Unit) : Init Unit := if c then m else pure ()

def sysStat (path : Str) : Init (Res FileType) :=
  call (fun k h => k.stat h path) (Event.stat path)

def sysMkdirAll (path : Str) (perm : Nat) : Init (Option Errno) :=
  call (fun k h => k.mkdirAll h path perm) (Event.mkdirAll path perm)

def sysMount (source target fstype : Str) (flags : Nat) (data : Str) : Init (Option Errno) :=
  call (fun k h => k.mount h source target fstype flags data)
    (Event.mount source target fstype flags data)

def sysUnmount (target : Str) (flags : Nat) : Init (Option Errno) :=
  call (fun k h => k.unmount h target flags) (Event.unmount target flags)

def sysMknod (path : Str) (mode dev : Nat) : Init (Option Errno) :=
  call (fun k h => k.mknod h path mode dev) (Event.mknod path mode dev)

def sysSymlink (oldname newname : Str) : Init (Option Errno) :=
  call (fun k h => k.symlink h oldname newname) (Event.symlink oldname newname)

def sysReadFile (path : Str) : Init FileRead :=
  call (fun k h => k.readFile h path) (Event.readFile path)

def sysReadDir (path : Str) : Init (Res (List DirEntry)) :=
  call (fun k h => k.readDir h path) (Event.readDir path)

def sysInitModule (image params : Str) : Init Errno :=
  call (fun k h => k.initModule h image params) (Event.initModule image params)

def sysChdir (path : Str) : Init (Option Errno) :=
  call (fun k h => k.chdir h path) (Event.chdir path)

def sysOpen (path : Str) : Init (Option Errno) :=
  call (fun k h => k.openFile h path) (Event.openFile path)

def sysChroot (path : Str) : Init (Option Errno) :=
  call (fun k h => k.chroot h path) (Event.chroot path)

def sysExec (argv0 : Str) (argv envv : List Str) : Init (Option Errno) :=
  call (fun k h => k.exec h argv0 argv envv) (Event.exec argv0 argv envv)

/-- The call `os.Environ()`. -/
def getEnviron : Init (List Str) := fun k h d => ⟨Outcome.ok (k.environ h), [], d⟩

/-! ## The program -/

/-- The function `setDebug`. -/
def setDebug (enabled : Bool) : Init Unit := fun _ _ _ => ⟨Outcome.ok (), [], enabled⟩

/-- The function `debugln`: a line on standard output when `debug` is set. -/
def debugln (format : Str) (args : List Arg) : Init Unit := fun k h d =>
  if d then emit (Event.stdout (format ++ ['\n']) args) k h d else ⟨Outcome.ok (), [], d⟩

/-- The function `mkdirP`. -/
def mkdirP (path : Str) : Init Unit := do
  let info ← sysStat path
  if IsNotExist info.toErr then check (← sysMkdirAll path 0o755) else pure ()

/-- A row of the table `devices` in `createStaticDevices`. -/
structure Device where
  path : Str
  major : Nat
  minor : Nat
  mode : Nat

def devices : List Device :=
  [⟨"/dev/kvm".toList, 10, 232, 0o660⟩,
   ⟨"/dev/loop-control".toList, 10, 237, 0o660⟩,
   ⟨"/dev/fuse".toList, 10, 229, 0o666⟩]

/-- The table `symlinks` in `createStaticDevices`: link path and target. -/
def symlinks : List (Str × Str) :=
  [("/dev/fd".toList, "/proc/self/fd".toList),
   ("/dev/stdin".toList, "/proc/self/fd/0".toList),
   ("/dev/stdout".toList, "/proc/self/fd/1".toList),
   ("/dev/stderr".toList, "/proc/self/fd/2".toList)]

/-- The first loop of `createStaticDevices`. -/
def createDevicesLoop : List Device → Init Unit
  | [] => pure ()
  | dev :: rest => do
    debugln "Creating %s".toList [Arg.str dev.path]
    let parent := Dir dev.path
    doWhen (decide (parent ≠ "/dev".toList)) (mkdirP parent)
    let devNum := Mkdev dev.major dev.minor
    let err ← sysMknod dev.path (S_IFCHR ||| dev.mode) devNum
    doWhen (decide (err ≠ none) && !IsExist err) (check err)
    createDevicesLoop rest

/-- The second loop of `createStaticDevices`. -/
def createSymlinksLoop : List (Str × Str) → Init Unit
  | [] => pure ()
  | link :: rest => do
    debugln "Creating %s".toList [Arg.str link.1]
    let err ← sysSymlink link.2 link.1
    doWhen (decide (err ≠ none) && !IsExist err) (check err)
    createSymlinksLoop rest

/-- The function `createStaticDevices`. -/
def createStaticDevices : Init Unit := do
  debugln "Creating static device nodes".toList []
  createDevicesLoop devices
  createSymlinksLoop symlinks

/-- The function `readCmdline`. -/
def readCmdline : Init Str := do
  debugln "Reading /proc/cmdline".toList []
  match ← sysReadFile "/proc/cmdline".toList with
  | FileRead.err e => fail e
  | FileRead.blocks => goHang
  | FileRead.ok data => pure (TrimSpace data)

/-- A row of the table `mounts` in `mountAPIs`. -/
structure APIMount where
  source : Str
  target : Str
  fstype : Str
  flags : Nat
  data : Str

def apiMounts : List APIMount :=
  [⟨"sysfs".toList, "/sys".toList, "sysfs".toList, MS_NOSUID ||| MS_NOEXEC ||| MS_NODEV, []⟩,
   ⟨"devtmpfs".toList, "/dev".toList, "devtmpfs".toList, MS_NOSUID,
     "seclabel,mode=0755,size=4m".toList⟩,
   ⟨"proc".toList, "/proc".toList, "proc".toList, MS_NOSUID ||| MS_NOEXEC ||| MS_NODEV, []⟩,
   ⟨"tmpfs".toList, "/run".toList, "tmpfs".toList, MS_NOSUID ||| MS_NODEV,
     "seclabel,mode=0755,size=64m".toList⟩,
   ⟨"tmpfs".toList, "/tmp".toList, "tmpfs".toList, MS_NOSUID ||| MS_NODEV,
     "seclabel,mode=0755,size=128m".toList⟩]

/-- The loop of `mountAPIs`. -/
def mountAPIsLoop : List APIMount → Init Unit
  | [] => pure ()
  | m :: rest => do
    debugln "Mounting %s".toList [Arg.str m.target]
    check (← sysMount m.source m.target m.fstype m.flags m.data)
    mountAPIsLoop rest

/-- The function `mountAPIs`. -/
def mountAPIs : Init Unit := mountAPIsLoop apiMounts

/-- The function `moveMount`. -/
def moveMount (src dest : Str) : Init Unit := do
  debugln "Moving %s to %s".toList [Arg.str src, Arg.str dest]
  check (← sysMount src dest [] MS_MOVE [])

/-- The function `mountVirtiofs`. -/
def mountVirtiofs (tag mountpoint : Str) (readOnly : Bool) : Init Unit := do
  debugln "Mounting %s at %s (read_only: %v)".toList
    [Arg.str tag, Arg.str mountpoint, Arg.bool readOnly]
  let flags := if readOnly then MS_RDONLY else 0
  check (← sysMount tag mountpoint "virtiofs".toList flags [])

/-- The function `switchRoot`; the handle on the old root is closed when it returns. -/
def switchRoot (newroot : Str) : Init Unit := do
  debugln "Switching root to %s".toList [Arg.str newroot]
  check (← sysChdir newroot)
  check (← sysOpen ['/'])
  deferred (emit (Event.closeFile ['/'])) (do
    moveMount ['.'] ['/']
    check (← sysChroot ['.'])
    check (← sysChdir ['/']))

/-- The function `loadKernelModule`: `&moduleData[0]` panics on an empty slice. -/
def loadKernelModule (modulePath : Str) : Init Unit := do
  debugln "Loading module: %s".toList [Arg.str modulePath]
  match ← sysReadFile modulePath with
  | FileRead.err e => fail e
  | FileRead.blocks => goHang
  | FileRead.ok moduleData =>
    if moduleData = [] then goPanic "index out of range [0] with length 0".toList
    else do
      let errno ← sysInitModule moduleData []
      if errno ≠ 0 then fail errno else pure ()

/-- The first loop of `loadKernelModules`, with the slice `modulePaths` it appends to. -/
def collectModulePaths (modulesDir : Str) : List DirEntry → List Str → List Str
  | [], modulePaths => modulePaths
  | entry :: rest, modulePaths =>
    if !entry.IsDir then
      let path := Join modulesDir entry.name
      if HasSuffix entry.name ".ko".toList then
        collectModulePaths modulesDir rest (modulePaths ++ [path])
      else collectModulePaths modulesDir rest modulePaths
    else collectModulePaths modulesDir rest modulePaths

/-- The body of `if err := loadKernelModule(path); err != nil`: the failure is reported on
standard error. -/
def reportLoadFailure (path : Str) : Option Errno → Init Unit
  | some e =>
    emit (Event.stderr "Failed to load module %s: %v\n".toList [Arg.str path, Arg.err e])
  | none => pure ()

/-- The second loop of `loadKernelModules`: a failure is reported and the loop goes on. -/
def loadModulesLoop : List Str → Init Unit
  | [] => pure ()
  | path :: rest => do
    let err ← errorOf (loadKernelModule path)
    reportLoadFailure path err
    loadModulesLoop rest

/-- The function `loadKernelModules`. -/
def loadKernelModules (modulesDir : Str) : Init Unit := do
  let info ← sysStat modulesDir
  if IsNotExist info.toErr then pure ()
  else do
    match ← sysReadDir modulesDir with
    | Res.err e => fail e
    | Res.ok entries => loadModulesLoop (sortStrings (collectModulePaths modulesDir entries []))

def dirs : List Str :=
  ["/sysroot".toList, "/sys".toList, "/dev".toList, "/proc".toList, "/run".toList,
   "/tmp".toList]

def survivingMounts : List Str :=
  ["/run".toList, "/dev".toList, "/proc".toList, "/sys".toList, "/tmp".toList]

/-- The first loop of `doInit`. -/
def mkdirLoop : List Str → Init Unit
  | [] => pure ()
  | dir :: rest => do
    mkdirP dir
    mkdirLoop rest

/-- The loop of `doInit` over `additionalMounts`. -/
def additionalMountsLoop : List MountEntry → Init Unit
  | [] => pure ()
  | mount :: rest => do
    let mountPath := Join "/run/mnt".toList mount.tag
    mkdirP mountPath
    mountVirtiofs mount.tag mountPath mount.readOnly
    additionalMountsLoop rest

/-- The body of the loop of `doInit` over `survivingMounts`: the mount is moved under the
new root when `os.Stat(dest)` succeeds, and unmounted otherwise. -/
def relocateOrUnmount (mountPoint dest : Str) : Init Unit := do
  let info ← sysStat dest
  if info.toErr = none then moveMount mountPoint dest else check (← sysUnmount mountPoint 0)

/-- The loop of `doInit` over `survivingMounts`. -/
def survivingMountsLoop : List Str → Init Unit
  | [] => pure ()
  | mountPoint :: rest => do
    let dest := Join "/sysroot".toList mountPoint
    relocateOrUnmount mountPoint dest
    survivingMountsLoop rest

/-- The end of `doInit`: the init program replaces the process; when `exec` fails the
failure is reported and returned. -/
def execInit (initProgram : Str) : Init Unit := do
  let initName := Base initProgram
  let envv ← getEnviron
  match ← sysExec initProgram [initName] envv with
  | some e => do
    emit (Event.stderr "Failed to execute %s: %v\n".toList [Arg.str initProgram, Arg.err e])
    fail e
  | none => pure ()

/-- The function `doInit`. -/
def doInit : Init Unit := do
  mkdirLoop dirs
  mountAPIs
  mkdirP "/run/mnt".toList
  let cmdline ← readCmdline
  doWhen (cmdlineGet cmdline "debug".toList).2 (setDebug true)
  createStaticDevices
  loadKernelModules "/usr/lib/modules".toList
  let rootfsTag := resolveRootfsTag cmdline
  mountVirtiofs rootfsTag "/sysroot".toList true
  let additionalMounts := cmdlineGetMounts cmdline
  additionalMountsLoop additionalMounts
  survivingMountsLoop survivingMounts
  switchRoot "/sysroot".toList
  let initProgram := resolveInitProgram cmdline
  debugln "Executing init: %s".toList [Arg.str initProgram]
  execInit initProgram

/-- The state the process starts in: no event yet, `debug` unset. -/
def boot (k : World) : Run Unit := doInit k [] false

/-! ## Properties of runs -/

/-- Every event a piece of the program emits satisfies `P`, and every value it returns
satisfies `Q`, in the world `k`, whatever happened before. -/
def Sat {α : Type} (k : World) (m : Init α) (P : Event → Prop) (Q : α → Prop) : Prop :=
  ∀ h d, (∀ e ∈ (m k h d).events, P e) ∧ ∀ a, (m k h d).out = Outcome.ok a → Q a

/-- The line `debugln` prints when `debug` is set, and nothing otherwise. -/
def debugEvents (d : Bool) (format : Str) (args : List Arg) : List Event :=
  if d then [Event.stdout (format ++ ['\n']) args] else []

/-- A world in which every call succeeds: `/proc/cmdline` holds `cmdline`, every directory
lists `entries`, every other file holds `moduleData`. -/
def quietWorld (cmdline : Str) (entries : List DirEntry) (moduleData : Str) : World where
  stat := fun _ _ => Res.ok FileType.dir
  mkdirAll := fun _ _ _ => none
  mount := fun _ _ _ _ _ _ => none
  unmount := fun _ _ _ => none
  mknod := fun _ _ _ _ => none
  symlink := fun _ _ _ => none
  readFile := fun _ path =>
    if path = "/proc/cmdline".toList then FileRead.ok cmdline else FileRead.ok moduleData
  readDir := fun _ _ => Res.ok entries
  initModule := fun _ _ _ => 0
  chdir := fun _ _ => none
  openFile := fun _ _ => none
  chroot := fun _ _ => none
  exec := fun _ _ _ _ => none
  environ := fun _ => []

/-! ## Module loading: what an attempt looks like -/

/-- The candidates of `loadKernelModules`, as a specification: the entries that are not
directories and whose name ends in `.ko`, each joined to the module directory. -/
def moduleCandidates (modulesDir : Str) (entries : List DirEntry) : List Str :=
  (entries.filter (fun e => !e.IsDir && HasSuffix e.name ".ko".toList)).map
    (fun e => Join modulesDir e.name)

/-- The report `loadKernelModules` writes for a failed load. -/
def loadFailureReport (path : Str) (e : Errno) : Event :=
  Event.stderr "Failed to load module %s: %v\n".toList [Arg.str path, Arg.err e]

/-- The events of one attempt to load the module at `path`: the file is read and handed to
`init_module`; a failure of either step gives exactly one report. -/
inductive LoadAttempt (d : Bool) (path : Str) : List Event → Prop
  | loaded (image : Str) :
    LoadAttempt d path
      (debugEvents d "Loading module: %s".toList [Arg.str path] ++
        [Event.readFile path (FileRead.ok image), Event.initModule image [] 0])
  | rejected (image : Str) (errno : Errno) (hne : errno ≠ 0) :
    LoadAttempt d path
      (debugEvents d "Loading module: %s".toList [Arg.str path] ++
        [Event.readFile path (FileRead.ok image), Event.initModule image [] errno,
         loadFailureReport path errno])
  | unreadable (e : Errno) :
    LoadAttempt d path
      (debugEvents d "Loading module: %s".toList [Arg.str path] ++
        [Event.readFile path (FileRead.err e), loadFailureReport path e])

/-! ## Kinds of events -/

/-- A line of `debugln` on standard output. -/
def Event.isLog : Event → Bool
  | Event.stdout _ _ => true
  | _ => false

/-- A mount request of type `virtiofs`. -/
def Event.isVirtiofsMount : Event → Bool
  | Event.mount _ _ fstype _ _ _ => decide (fstype = "virtiofs".toList)
  | _ => false

/-- A move-mount (a mount request with the flag `MS_MOVE`) or an unmount. -/
def Event.isRelocation : Event → Bool
  | Event.mount _ _ _ flags _ _ => decide (flags = MS_MOVE)
  | Event.unmount _ _ _ => true
  | _ => false

/-- An event of `mkdirP`, or a line of `debugln`. -/
def Event.isDirPrep : Event → Bool
  | Event.stat _ _ => true
  | Event.mkdirAll _ _ _ => true
  | Event.stdout _ _ => true
  | _ => false

/-- The requests of a run: its events without the lines of `debugln`. -/
def requests (evs : List Event) : List Event := evs.filter (fun e => !e.isLog)

/-- When a piece of the program returns normally, its value and its requests satisfy `S`. -/
def Succ {α : Type} (k : World) (m : Init α) (S : α → List Event → Prop) : Prop :=
  ∀ h d a, (m k h d).out = Outcome.ok a → S a (requests (m k h d).events)

/-- The requests of a successful `mkdirP path`: the directory is there (`stat` does not say
it is missing), or it is missing and `MkdirAll` creates it. -/
inductive DirReady (path : Str) : List Event → Prop
  | present (info : Res FileType) (h : IsNotExist info.toErr = false) :
    DirReady path [Event.stat path info]
  | created :
    DirReady path [Event.stat path (Res.err ENOENT), Event.mkdirAll path 0o755 none]

/-- The requests `doInit` makes for one additional share when nothing fails: the mountpoint
`filepath.Join("/run/mnt", tag)` is made ready, then the share is mounted there, read-only
exactly when the entry says so. -/
inductive ShareMount (m : MountEntry) : List Event → Prop
  | mk (prep : List Event) (hp : DirReady (Join "/run/mnt".toList m.tag) prep) :
    ShareMount m (prep ++
      [Event.mount m.tag (Join "/run/mnt".toList m.tag) "virtiofs".toList
        (if m.readOnly then MS_RDONLY else 0) [] none])

/-- The requests `doInit` makes for one surviving mountpoint when nothing fails: the mount is
moved under `/sysroot` when `os.Stat` of the destination succeeds, whatever type of file it
finds there, and unmounted when `os.Stat` returns an error, whatever the error. -/
inductive Relocation (mountPoint : Str) : List Event → Prop
  | moved (found : FileType) :
    Relocation mountPoint
      [Event.stat (Join "/sysroot".toList mountPoint) (Res.ok found),
       Event.mount mountPoint (Join "/sysroot".toList mountPoint) [] MS_MOVE [] none]
  | unmounted (e : Errno) :
    Relocation mountPoint
      [Event.stat (Join "/sysroot".toList mountPoint) (Res.err e),
       Event.unmount mountPoint 0 none]

/-- The first event of kind `p` in a list of events, if there is one, satisfies `R`, and
the events before it satisfy `S`. -/
def FirstIs (p : Event → Bool) (S R : Event → Prop) (evs : List Event) : Prop :=
  ∀ pre ev post, evs = pre ++ ev :: post → p ev = true → (∀ x ∈ pre, p x = false) →
    R ev ∧ ∀ x ∈ pre, S x

/-- Where a virtiofs mount request of `doInit` comes from: the root mount at `/sysroot`,
read-only, or the entry of an additional share. Every other event is allowed. -/
def ShareOrigin (cmdline : Str) (e : Event) : Prop :=
  e.isVirtiofsMount = false ∨
  (∃ r, e = Event.mount (resolveRootfsTag cmdline) "/sysroot".toList "virtiofs".toList
    MS_RDONLY [] r) ∨
  (∃ m ∈ cmdlineGetMounts cmdline, ∃ r,
    e = Event.mount m.tag (Join "/run/mnt".toList m.tag) "virtiofs".toList
      (if m.readOnly then MS_RDONLY else 0) [] r)

/-- A world like `quietWorld` with an empty command line, except that the new root has no
directory `/sysroot/proc` (`stat` says it does not exist). -/
def sparseRootWorld : World :=
  { quietWorld [] [] [] with
    stat := fun _ path =>
      if path = "/sysroot/proc".toList then Res.err ENOENT else Res.ok FileType.dir }

/-- A world like `quietWorld` with an empty command line, except that `/sysroot/proc` is a
regular file, not a directory. -/
def fileRootWorld : World :=
  { quietWorld [] [] [] with
    stat := fun _ path =>
      if path = "/sysroot/proc".toList then Res.ok FileType.regular else Res.ok FileType.dir }

/-- A world like `quietWorld` with an empty command line, except that `chroot` fails with
`EPERM`. -/
def noChrootWorld : World :=
  { quietWorld [] [] [] with chroot := fun _ _ => some 1 }

/-! ## Fatal failures -/

/-- The error of a failed step that `doInit` treats as fatal: a failed mount (of a kernel
API file system, of a virtiofs share, or a move-mount), unmount, `chdir`, `open`, `chroot`,
`MkdirAll` or `ReadDir`, a failed device or symlink creation other than "already exists",
and a failed read of `/proc/cmdline`. Everything else, a failed module load included, is
not fatal. -/
def Event.fatal : Event → Option Errno
  | Event.mkdirAll _ _ (some e) => some e
  | Event.mount _ _ _ _ _ (some e) => some e
  | Event.unmount _ _ (some e) => some e
  | Event.mknod _ _ _ (some e) => if IsExist (some e) then none else some e
  | Event.symlink _ _ (some e) => if IsExist (some e) then none else some e
  | Event.readFile path (FileRead.err e) =>
    if path = "/proc/cmdline".toList then some e else none
  | Event.readDir _ (Res.err e) => some e
  | Event.chdir _ (some e) => some e
  | Event.openFile _ (some e) => some e
  | Event.chroot _ (some e) => some e
  | _ => none

/-- A step of `switchRoot` that runs while the handle on the old root is open: the
move-mount of the new root onto `/`, `chroot(".")` or `chdir("/")`. -/
def Event.afterOpen : Event → Bool
  | Event.mount src target _ flags _ _ =>
    decide (src = ['.']) && decide (target = ['/']) && decide (flags = MS_MOVE)
  | Event.chroot path _ => decide (path = ['.'])
  | Event.chdir path _ => decide (path = ['/'])
  | _ => false

/-- A mount request of any kind. -/
def Event.isMount : Event → Bool
  | Event.mount _ _ _ _ _ _ => true
  | _ => false

/-- Fail-fast: whenever an event `ev` of the run is a fatal failure with error `e`, the run
returns `e` and the events after the failure satisfy `A ev`. -/
def FailFast {α : Type} (A : Event → List Event → Prop) (k : World) (m : Init α) : Prop :=
  ∀ h d pre ev post e, (m k h d).events = pre ++ ev :: post → ev.fatal = some e →
    (m k h d).out = Outcome.error e ∧ A ev post

/-- What may follow a fatal failure in `doInit`: nothing, or, for a step of `switchRoot` that
runs while the old root is open, the deferred close of that handle. -/
def AfterFailure (ev : Event) (post : List Event) : Prop :=
  post = [] ∨ (post = [Event.closeFile ['/']] ∧ ev.afterOpen = true)

/-- A world like `quietWorld` with an empty command line, except that mounting on `/sys`
fails with `EPERM`. -/
def noSysfsWorld : World :=
  { quietWorld [] [] [] with
    mount := fun _ _ target _ _ _ => if target = "/sys".toList then some 1 else none }

/-! ## Lemmas on the string helpers -/

theorem hasPrefix_iff (s pfx : Str) : HasPrefix s pfx = true ↔ ∃ v, s = pfx ++ v := by
  unfold HasPrefix
  rw [List.isPrefixOf_iff_prefix]
  constructor
  · rintro ⟨v, hv⟩
    exact ⟨v, hv.symm⟩
  · rintro ⟨v, hv⟩
    exact ⟨v, hv.symm⟩

theorem hasPrefix_append (pfx v : Str) : HasPrefix (pfx ++ v) pfx = true :=
  (hasPrefix_iff _ _).2 ⟨v, rfl⟩

theorem trimPrefix_append (pfx v : Str) : TrimPrefix (pfx ++ v) pfx = v := by
  simp [TrimPrefix, hasPrefix_append]

theorem no_value_iff (key t : Str) :
    (∀ v, t ≠ key ++ '=' :: v) ↔ ¬ (key ++ ['=']) <+: t := by
  constructor
  · rintro h ⟨v, hv⟩
    exact h v (by simpa using hv.symm)
  · intro h v hv
    exact h ⟨v, by simp [hv]⟩

theorem cmdlineGetLoop_none (key : Str) (ts : List Str)
    (h : ∀ t ∈ ts, t ≠ key ∧ ∀ v, t ≠ key ++ '=' :: v) :
    cmdlineGetLoop key ts = ([], false) := by
  induction ts with
  | nil => rfl
  | cons t ts ih =>
    have ht := h t (List.mem_cons_self _ _)
    have hp : HasPrefix t (key ++ ['=']) = false := by
      cases hq : HasPrefix t (key ++ ['=']) with
      | false => rfl
      | true =>
        obtain ⟨v, hv⟩ := (hasPrefix_iff _ _).1 hq
        exact absurd (by simpa using hv) (ht.2 v)
    simp only [cmdlineGetLoop, ht.1, hp, if_false, Bool.false_eq_true]
    exact ih (fun u hu => h u (List.mem_cons_of_mem _ hu))

theorem cmdlineGetLoop_skip (key : Str) (pre rest : List Str)
    (h : ∀ t ∈ pre, t ≠ key ∧ ∀ v, t ≠ key ++ '=' :: v) :
    cmdlineGetLoop key (pre ++ rest) = cmdlineGetLoop key rest := by
  induction pre with
  | nil => rfl
  | cons t ts ih =>
    have ht := h t (List.mem_cons_self _ _)
    have hp : HasPrefix t (key ++ ['=']) = false := by
      cases hq : HasPrefix t (key ++ ['=']) with
      | false => rfl
      | true =>
        obtain ⟨v, hv⟩ := (hasPrefix_iff _ _).1 hq
        exact absurd (by simpa using hv) (ht.2 v)
    simp only [List.cons_append, cmdlineGetLoop, ht.1, hp, if_false, Bool.false_eq_true]
    exact ih (fun u hu => h u (List.mem_cons_of_mem _ hu))

theorem cmdlineGetLoop_bare (key : Str) (rest : List Str) :
    cmdlineGetLoop key (key :: rest) = ([], true) := by
  simp [cmdlineGetLoop]

theorem cmdlineGetLoop_value (key v : Str) (rest : List Str) :
    cmdlineGetLoop key ((key ++ '=' :: v) :: rest) = (v, true) := by
  have h1 : key ++ '=' :: v ≠ key := by
    intro h
    have := congrArg List.length h
    simp at this
  have h2 : key ++ '=' :: v = (key ++ ['=']) ++ v := by simp
  simp only [cmdlineGetLoop, h1, if_false]
  rw [h2, hasPrefix_append, trimPrefix_append]
  simp

theorem cmdlineGetLoop_snd (key : Str) (ts : List Str) :
    (cmdlineGetLoop key ts).2 = true ↔ ∃ t ∈ ts, t = key ∨ ∃ v, t = key ++ '=' :: v := by
  induction ts with
  | nil => simp [cmdlineGetLoop]
  | cons t ts ih =>
    by_cases h1 : t = key
    · simp [cmdlineGetLoop, h1]
    · by_cases h2 : HasPrefix t (key ++ ['=']) = true
      · obtain ⟨v, hv⟩ := (hasPrefix_iff _ _).1 h2
        simp only [cmdlineGetLoop, h1, h2, if_true, if_false, true_iff]
        exact ⟨t, List.mem_cons_self _ _, Or.inr ⟨v, by simpa using hv⟩⟩
      · have h3 : ¬ ∃ v, t = key ++ '=' :: v := by
          rintro ⟨v, hv⟩
          apply h2
          rw [hasPrefix_iff]
          exact ⟨v, by simpa using hv⟩
        have h4 : HasPrefix t (key ++ ['=']) = false := by simpa using h2
        simp only [cmdlineGetLoop, h1, h4, if_false, Bool.false_eq_true, ih, List.mem_cons]
        constructor
        · rintro ⟨u, hu, hm⟩
          exact ⟨u, Or.inr hu, hm⟩
        · rintro ⟨u, hu | hu, hm⟩
          · subst hu
            rcases hm with hm | hm
            · exact absurd hm h1
            · exact absurd hm h3
          · exact ⟨u, hu, hm⟩


theorem directiveTag_some (pfx t tag : Str) :
    directiveTag pfx t = some tag ↔ tag ≠ [] ∧ t = pfx ++ tag := by
  unfold directiveTag
  constructor
  · intro h
    split at h
    · rename_i hc
      have ht : t.drop pfx.length = tag := Option.some.inj h
      refine ⟨ht ▸ hc.2, ?_⟩
      have := List.take_append_drop pfx.length t
      rw [hc.1, ht] at this
      exact this.symm
    · exact absurd h (by simp)
  · rintro ⟨hne, rfl⟩
    simp [hne]

theorem directiveTag_none (pfx t : Str) :
    directiveTag pfx t = none ↔ ∀ tag, tag ≠ [] → t ≠ pfx ++ tag := by
  constructor
  · intro h tag hne ht
    have := (directiveTag_some pfx t tag).2 ⟨hne, ht⟩
    rw [h] at this
    exact absurd this (by simp)
  · intro h
    cases hd : directiveTag pfx t with
    | none => rfl
    | some tag =>
      obtain ⟨hne, ht⟩ := (directiveTag_some pfx t tag).1 hd
      exact absurd ht (h tag hne)

theorem mount_prefixes_disjoint (v w : Str) : "mount=".toList ++ v ≠ "mount-ro=".toList ++ w := by
  simp [String.toList]

theorem mountDirective_iff (t tag : Str) (ro : Bool) :
    mountDirective t = some ⟨tag, ro⟩ ↔
      tag ≠ [] ∧ t = (if ro then "mount-ro=".toList else "mount=".toList) ++ tag := by
  unfold mountDirective
  cases h1 : directiveTag "mount=".toList t with
  | some tag1 =>
    obtain ⟨hne, ht⟩ := (directiveTag_some _ _ _).1 h1
    cases ro with
    | false =>
      simp only [Option.some.injEq, MountEntry.mk.injEq, and_true, Bool.false_eq_true, if_false]
      constructor
      · rintro rfl
        exact ⟨hne, ht⟩
      · rintro ⟨_, ht2⟩
        exact List.append_cancel_left (ht.symm.trans ht2)
    | true =>
      simp only [Option.some.injEq, MountEntry.mk.injEq, if_true]
      constructor
      · rintro ⟨_, hf⟩
        exact absurd hf (by simp)
      · rintro ⟨_, ht2⟩
        exact absurd (ht.symm.trans ht2) (mount_prefixes_disjoint _ _)
  | none =>
    have hno := (directiveTag_none _ _).1 h1
    cases h2 : directiveTag "mount-ro=".toList t with
    | some tag2 =>
      obtain ⟨hne, ht⟩ := (directiveTag_some _ _ _).1 h2
      cases ro with
      | true =>
        simp only [Option.some.injEq, MountEntry.mk.injEq, and_true, if_true]
        constructor
        · rintro rfl
          exact ⟨hne, ht⟩
        · rintro ⟨_, ht2⟩
          exact List.append_cancel_left (ht.symm.trans ht2)
      | false =>
        simp only [Option.some.injEq, MountEntry.mk.injEq, Bool.false_eq_true, if_false]
        constructor
        · rintro ⟨_, hf⟩
          exact absurd hf (by simp)
        · rintro ⟨hne2, ht2⟩
          exact absurd ht2 (hno tag hne2)
    | none =>
      have hno2 := (directiveTag_none _ _).1 h2
      constructor
      · intro hf
        exact absurd hf (by simp)
      · rintro ⟨hne, ht⟩
        cases ro with
        | true => exact absurd ht (hno2 tag hne)
        | false => exact absurd ht (hno tag hne)

/-- One step of the loop of `cmdlineGetMounts` appends what the specification reads in the
token. -/
theorem cmdlineGetMountsLoop_cons (t : Str) (rest : List Str) (mounts : List MountEntry) :
    cmdlineGetMountsLoop (t :: rest) mounts =
      cmdlineGetMountsLoop rest (mounts ++ (mountDirective t).toList) := by
  by_cases h1 : HasPrefix t "mount=".toList = true
  · obtain ⟨v, ht⟩ := (hasPrefix_iff _ _).1 h1
    have htrim : TrimPrefix t "mount=".toList = v := by rw [ht, trimPrefix_append]
    by_cases hv : v = []
    · have hd1 : directiveTag "mount=".toList t = none :=
        (directiveTag_none _ _).2 (fun tag hne h =>
          hne (List.append_cancel_left (h.symm.trans ht) ▸ hv))
      have hd2 : directiveTag "mount-ro=".toList t = none :=
        (directiveTag_none _ _).2 (fun tag _ h =>
          mount_prefixes_disjoint _ _ (ht.symm.trans h))
      simp only [cmdlineGetMountsLoop, h1, htrim, mountDirective, hd1, hd2, hv,
        if_true, ne_eq, not_true_eq_false, if_false, Option.toList, List.append_nil]
    · have hd1 : directiveTag "mount=".toList t = some v :=
        (directiveTag_some _ _ _).2 ⟨hv, ht⟩
      simp only [cmdlineGetMountsLoop, h1, htrim, mountDirective, hd1, hv,
        if_true, ne_eq, not_false_eq_true, Option.toList]
  · have h1f : HasPrefix t "mount=".toList = false := by simpa using h1
    have hd1 : directiveTag "mount=".toList t = none :=
      (directiveTag_none _ _).2 (fun tag _ ht => h1 ((hasPrefix_iff _ _).2 ⟨tag, ht⟩))
    by_cases h2 : HasPrefix t "mount-ro=".toList = true
    · obtain ⟨v, ht⟩ := (hasPrefix_iff _ _).1 h2
      have htrim : TrimPrefix t "mount-ro=".toList = v := by rw [ht, trimPrefix_append]
      by_cases hv : v = []
      · have hd2 : directiveTag "mount-ro=".toList t = none :=
          (directiveTag_none _ _).2 (fun tag hne h =>
            hne (List.append_cancel_left (h.symm.trans ht) ▸ hv))
        simp only [cmdlineGetMountsLoop, h1f, h2, htrim, mountDirective, hd1, hd2, hv,
          if_true, ne_eq, not_true_eq_false, if_false, Option.toList, List.append_nil,
          Bool.false_eq_true]
      · have hd2 : directiveTag "mount-ro=".toList t = some v :=
          (directiveTag_some _ _ _).2 ⟨hv, ht⟩
        simp only [cmdlineGetMountsLoop, h1f, h2, htrim, mountDirective, hd1, hd2,
          hv, if_true, ne_eq, not_false_eq_true, if_false, Option.toList, Bool.false_eq_true]
    · have h2f : HasPrefix t "mount-ro=".toList = false := by simpa using h2
      have hd2 : directiveTag "mount-ro=".toList t = none :=
        (directiveTag_none _ _).2 (fun tag _ ht => h2 ((hasPrefix_iff _ _).2 ⟨tag, ht⟩))
      simp only [cmdlineGetMountsLoop, h1f, h2f, mountDirective, hd1, hd2, if_false,
        Option.toList, List.append_nil, Bool.false_eq_true]

theorem cmdlineGetMountsLoop_eq (ts : List Str) (mounts : List MountEntry) :
    cmdlineGetMountsLoop ts mounts = mounts ++ ts.filterMap mountDirective := by
  induction ts generalizing mounts with
  | nil => simp [cmdlineGetMountsLoop]
  | cons t ts ih =>
    rw [cmdlineGetMountsLoop_cons, ih]
    cases h : mountDirective t <;> simp [List.filterMap_cons, h]

/-! ## The command-line parser: C1, C2, C3 -/

/-- C1: `cmdlineGetMounts` returns exactly the entries the specification reads in the
whitespace-separated tokens, scanned left to right: a token `mount=<tag>` gives
`(tag, readOnly = false)`, a token `mount-ro=<tag>` gives `(tag, readOnly = true)`, both only
for a non-empty tag, every other token gives nothing; order and duplicates are kept. -/
theorem cmdlineGetMounts_spec (cmdline : Str) :
    cmdlineGetMounts cmdline = (Fields cmdline).filterMap mountDirective ∧
    ∀ t tag ro, mountDirective t = some ⟨tag, ro⟩ ↔
      tag ≠ [] ∧ t = (if ro then "mount-ro=".toList else "mount=".toList) ++ tag := by
  refine ⟨?_, mountDirective_iff⟩
  unfold cmdlineGetMounts
  rw [cmdlineGetMountsLoop_eq]
  rfl

theorem cmdlineGet_bare_first (cmdline key : Str) (pre post : List Str)
    (hf : Fields cmdline = pre ++ key :: post)
    (hpre : ∀ p ∈ pre, p ≠ key ∧ ¬ (key ++ ['=']) <+: p) :
    cmdlineGet cmdline key = ([], true) := by
  unfold cmdlineGet
  rw [hf, cmdlineGetLoop_skip key pre _
    (fun p hp => ⟨(hpre p hp).1, (no_value_iff key p).2 (hpre p hp).2⟩)]
  exact cmdlineGetLoop_bare _ _

theorem cmdlineGet_value_first (cmdline key v : Str) (pre post : List Str)
    (hf : Fields cmdline = pre ++ (key ++ '=' :: v) :: post)
    (hpre : ∀ p ∈ pre, p ≠ key ∧ ¬ (key ++ ['=']) <+: p) :
    cmdlineGet cmdline key = (v, true) := by
  unfold cmdlineGet
  rw [hf, cmdlineGetLoop_skip key pre _
    (fun p hp => ⟨(hpre p hp).1, (no_value_iff key p).2 (hpre p hp).2⟩)]
  exact cmdlineGetLoop_value _ _ _

theorem cmdlineGet_no_match (cmdline key : Str)
    (h : ∀ t ∈ Fields cmdline, t ≠ key ∧ ¬ (key ++ ['=']) <+: t) :
    cmdlineGet cmdline key = ([], false) :=
  cmdlineGetLoop_none key _ (fun t ht => ⟨(h t ht).1, (no_value_iff key t).2 (h t ht).2⟩)

/-- C3: `cmdlineGet` is decided by the first token that is the bare key or starts with
`key=`: the bare key gives `("", true)`, `key=value` gives `(value, true)`, whatever tokens
follow; and the result is `("", false)` exactly when no token matches. -/
theorem cmdlineGet_first_match (cmdline key : Str) :
    (∀ pre t post, Fields cmdline = pre ++ t :: post →
      (∀ p ∈ pre, p ≠ key ∧ ¬ (key ++ ['=']) <+: p) →
        (t = key → cmdlineGet cmdline key = ([], true)) ∧
        (∀ v, t = key ++ '=' :: v → cmdlineGet cmdline key = (v, true))) ∧
    (cmdlineGet cmdline key = ([], false) ↔
      ∀ t ∈ Fields cmdline, t ≠ key ∧ ¬ (key ++ ['=']) <+: t) := by
  constructor
  · intro pre t post hf hpre
    constructor
    · rintro rfl
      exact cmdlineGet_bare_first cmdline _ pre post hf hpre
    · rintro v rfl
      exact cmdlineGet_value_first cmdline key v pre post hf hpre
  · constructor
    · intro h t ht
      have hs : ¬ (cmdlineGetLoop key (Fields cmdline)).2 = true := by
        unfold cmdlineGet at h
        rw [h]
        simp
      rw [cmdlineGetLoop_snd] at hs
      constructor
      · intro h1
        exact hs ⟨t, ht, Or.inl h1⟩
      · rw [← no_value_iff]
        intro v h1
        exact hs ⟨t, ht, Or.inr ⟨v, h1⟩⟩
    · exact cmdlineGet_no_match cmdline key

/-- C3, at the command line `debug rootfs=a rootfs=b`: the first `rootfs=` token decides. -/
theorem cmdlineGet_first_match_witness :
    cmdlineGet "debug rootfs=a rootfs=b".toList "rootfs".toList = ("a".toList, true) :=
  ((cmdlineGet_first_match "debug rootfs=a rootfs=b".toList "rootfs".toList).1
    ["debug".toList] "rootfs=a".toList ["rootfs=b".toList] (by rfl) (by decide)).2
    "a".toList (by rfl)

/-- C2, as stated, fails: a later `rootfs=b` does not decide the tag when `rootfs=a` comes
first, an empty value `rootfs=` leaves the default, and so does a bare `rootfs` in front. -/
theorem rootfs_token_not_resolved :
    ("rootfs=b".toList ∈ Fields "rootfs=a rootfs=b".toList ∧
      resolveRootfsTag "rootfs=a rootfs=b".toList = "a".toList ∧ "a".toList ≠ "b".toList) ∧
    ("rootfs=".toList ++ [] ∈ Fields "rootfs=".toList ∧
      resolveRootfsTag "rootfs=".toList = "rootfs".toList ∧ "rootfs".toList ≠ []) ∧
    ("rootfs=x".toList ∈ Fields "rootfs rootfs=x".toList ∧
      resolveRootfsTag "rootfs rootfs=x".toList = "rootfs".toList ∧
      "rootfs".toList ≠ "x".toList) := by
  decide

/-- C2, amended: when the first token that is `rootfs` or starts with `rootfs=` is `rootfs=X`
with `X` non-empty, the resolved root tag is `X`; when that token is the bare `rootfs` or
`rootfs=` with an empty value, and when no token has the key, the tag is `rootfs`. -/
theorem resolveRootfsTag_spec (cmdline : Str) :
    (∀ pre X post, Fields cmdline = pre ++ ("rootfs".toList ++ '=' :: X) :: post →
      (∀ p ∈ pre, p ≠ "rootfs".toList ∧ ¬ ("rootfs".toList ++ ['=']) <+: p) →
        resolveRootfsTag cmdline = if X = [] then "rootfs".toList else X) ∧
    (∀ pre post, Fields cmdline = pre ++ "rootfs".toList :: post →
      (∀ p ∈ pre, p ≠ "rootfs".toList ∧ ¬ ("rootfs".toList ++ ['=']) <+: p) →
        resolveRootfsTag cmdline = "rootfs".toList) ∧
    ((∀ t ∈ Fields cmdline, t ≠ "rootfs".toList ∧ ¬ ("rootfs".toList ++ ['=']) <+: t) →
      resolveRootfsTag cmdline = "rootfs".toList) := by
  refine ⟨?_, ?_, ?_⟩
  · intro pre X post hf hpre
    have h := cmdlineGet_value_first cmdline "rootfs".toList X pre post hf hpre
    unfold resolveRootfsTag
    simp only [h]
    by_cases hX : X = [] <;> simp [hX]
  · intro pre post hf hpre
    have h := cmdlineGet_bare_first cmdline "rootfs".toList pre post hf hpre
    unfold resolveRootfsTag
    simp only [h]
    simp
  · intro hno
    have h := cmdlineGet_no_match cmdline "rootfs".toList hno
    unfold resolveRootfsTag
    simp only [h]
    simp

/-- C2, amended, at the command line `debug rootfs=a rootfs=b`: the tag is `a`. -/
theorem resolveRootfsTag_spec_witness :
    resolveRootfsTag "debug rootfs=a rootfs=b".toList =
      if "a".toList = [] then "rootfs".toList else "a".toList :=
  (resolveRootfsTag_spec "debug rootfs=a rootfs=b".toList).1
    ["debug".toList] "a".toList ["rootfs=b".toList] (by rfl) (by decide)

/-! ## The `Init` monad -/

theorem run_bind {α β : Type} (m : Init α) (f : α → Init β) (k : World) (h : List Event)
    (d : Bool) :
    (m >>= f) k h d =
      match (m k h d).out with
      | Outcome.ok a =>
        ⟨(f a k (h ++ (m k h d).events) (m k h d).debug).out,
         (m k h d).events ++ (f a k (h ++ (m k h d).events) (m k h d).debug).events,
         (f a k (h ++ (m k h d).events) (m k h d).debug).debug⟩
      | Outcome.error e => ⟨Outcome.error e, (m k h d).events, (m k h d).debug⟩
      | Outcome.panic msg => ⟨Outcome.panic msg, (m k h d).events, (m k h d).debug⟩
      | Outcome.hang => ⟨Outcome.hang, (m k h d).events, (m k h d).debug⟩ := by
  show Init.bind m f k h d = _
  unfold Init.bind
  rcases m k h d with ⟨out, evs, d1⟩
  cases out <;> rfl

@[simp] theorem run_pure {α : Type} (a : α) (k : World) (h : List Event) (d : Bool) :
    (pure a : Init α) k h d = ⟨Outcome.ok a, [], d⟩ := rfl

@[simp] theorem run_call {ρ : Type} (reply : World → List Event → ρ) (ev : ρ → Event)
    (k : World) (h : List Event) (d : Bool) :
    call reply ev k h d = ⟨Outcome.ok (reply k h), [ev (reply k h)], d⟩ := rfl

@[simp] theorem run_emit (ev : Event) (k : World) (h : List Event) (d : Bool) :
    emit ev k h d = ⟨Outcome.ok (), [ev], d⟩ := rfl

@[simp] theorem run_fail {α : Type} (e : Errno) (k : World) (h : List Event) (d : Bool) :
    (fail e : Init α) k h d = ⟨Outcome.error e, [], d⟩ := rfl

@[simp] theorem run_goPanic {α : Type} (msg : Str) (k : World) (h : List Event) (d : Bool) :
    (goPanic msg : Init α) k h d = ⟨Outcome.panic msg, [], d⟩ := rfl

@[simp] theorem run_goHang {α : Type} (k : World) (h : List Event) (d : Bool) :
    (goHang : Init α) k h d = ⟨Outcome.hang, [], d⟩ := rfl

@[simp] theorem run_check_none (k : World) (h : List Event) (d : Bool) :
    check none k h d = ⟨Outcome.ok (), [], d⟩ := rfl

@[simp] theorem run_check_some (e : Errno) (k : World) (h : List Event) (d : Bool) :
    check (some e) k h d = ⟨Outcome.error e, [], d⟩ := rfl

@[simp] theorem run_debugln (format : Str) (args : List Arg) (k : World) (h : List Event)
    (d : Bool) : debugln format args k h d = ⟨Outcome.ok (), debugEvents d format args, d⟩ := by
  cases d <;> rfl

@[simp] theorem run_setDebug (b : Bool) (k : World) (h : List Event) (d : Bool) :
    setDebug b k h d = ⟨Outcome.ok (), [], b⟩ := rfl

@[simp] theorem run_getEnviron (k : World) (h : List Event) (d : Bool) :
    getEnviron k h d = ⟨Outcome.ok (k.environ h), [], d⟩ := rfl

theorem run_errorOf (m : Init Unit) (k : World) (h : List Event) (d : Bool) :
    errorOf m k h d =
      match (m k h d).out with
      | Outcome.ok _ => ⟨Outcome.ok none, (m k h d).events, (m k h d).debug⟩
      | Outcome.error e => ⟨Outcome.ok (some e), (m k h d).events, (m k h d).debug⟩
      | Outcome.panic msg => ⟨Outcome.panic msg, (m k h d).events, (m k h d).debug⟩
      | Outcome.hang => ⟨Outcome.hang, (m k h d).events, (m k h d).debug⟩ := by
  unfold errorOf
  rcases m k h d with ⟨out, evs, d1⟩
  cases out <;> rfl

theorem run_deferred {α : Type} (fin : Init Unit) (body : Init α) (k : World)
    (h : List Event) (d : Bool) :
    deferred fin body k h d =
      if (body k h d).out.isHang then body k h d
      else
        ⟨(body k h d).out,
         (body k h d).events ++ (fin k (h ++ (body k h d).events) (body k h d).debug).events,
         (fin k (h ++ (body k h d).events) (body k h d).debug).debug⟩ := by
  unfold deferred
  rcases body k h d with ⟨out, evs, d1⟩
  cases out <;> rfl

/-! ## Event invariants -/

theorem sat_pure {α : Type} (k : World) (a : α) (P : Event → Prop) (Q : α → Prop) (hq : Q a) :
    Sat k (pure a : Init α) P Q := by
  intro h d
  simp only [run_pure, List.not_mem_nil, false_imp_iff, implies_true, true_and,
    Outcome.ok.injEq]
  rintro b rfl
  exact hq

theorem sat_bind {α β : Type} {k : World} {m : Init α} {f : α → Init β} {P : Event → Prop}
    {Q : α → Prop} {Q2 : β → Prop} (hm : Sat k m P Q) (hf : ∀ a, Q a → Sat k (f a) P Q2) :
    Sat k (m >>= f) P Q2 := by
  intro h d
  rw [run_bind]
  cases ho : (m k h d).out with
  | ok a =>
    have hfa := hf a ((hm h d).2 a ho) (h ++ (m k h d).events) (m k h d).debug
    refine ⟨?_, hfa.2⟩
    intro e he
    rcases List.mem_append.1 he with he | he
    · exact (hm h d).1 e he
    · exact hfa.1 e he
  | error e => exact ⟨(hm h d).1, fun a ha => absurd ha (by simp)⟩
  | panic msg => exact ⟨(hm h d).1, fun a ha => absurd ha (by simp)⟩
  | hang => exact ⟨(hm h d).1, fun a ha => absurd ha (by simp)⟩

theorem sat_call {ρ : Type} (k : World) (reply : World → List Event → ρ) (ev : ρ → Event)
    (P : Event → Prop) (hp : ∀ r, P (ev r)) : Sat k (call reply ev) P (fun _ => True) := by
  intro h d
  simp only [run_call, List.mem_singleton, forall_eq, implies_true, and_true]
  exact hp _

theorem sat_emit (k : World) (ev : Event) (P : Event → Prop) (hp : P ev) :
    Sat k (emit ev) P (fun _ => True) := by
  intro h d
  simp only [run_emit, List.mem_singleton, forall_eq, implies_true, and_true]
  exact hp

theorem sat_fail {α : Type} (k : World) (e : Errno) (P : Event → Prop) (Q : α → Prop) :
    Sat k (fail e : Init α) P Q := by
  intro h d
  simp

theorem sat_goPanic {α : Type} (k : World) (msg : Str) (P : Event → Prop) (Q : α → Prop) :
    Sat k (goPanic msg : Init α) P Q := by
  intro h d
  simp

theorem sat_goHang {α : Type} (k : World) (P : Event → Prop) (Q : α → Prop) :
    Sat k (goHang : Init α) P Q := by
  intro h d
  simp

theorem sat_check (k : World) (err : Option Errno) (P : Event → Prop) :
    Sat k (check err) P (fun _ => True) := by
  intro h d
  cases err <;> simp

theorem sat_debugln (k : World) (format : Str) (args : List Arg) (P : Event → Prop)
    (hp : ∀ f a, P (Event.stdout f a)) : Sat k (debugln format args) P (fun _ => True) := by
  intro h d
  cases d <;> simp [debugEvents, hp]

theorem sat_doWhen (k : World) (c : Bool) (m : Init Unit) (P : Event → Prop)
    (hm : Sat k m P (fun _ => True)) : Sat k (doWhen c m) P (fun _ => True) := by
  cases c
  · exact sat_pure k () P _ trivial
  · exact hm

theorem sat_errorOf (k : World) (m : Init Unit) (P : Event → Prop)
    (hm : Sat k m P (fun _ => True)) : Sat k (errorOf m) P (fun _ => True) := by
  intro h d
  rw [run_errorOf]
  cases ho : (m k h d).out <;> exact ⟨(hm h d).1, fun _ _ => trivial⟩

theorem sat_deferred {α : Type} (k : World) (fin : Init Unit) (body : Init α)
    (P : Event → Prop) (Q : α → Prop) (hb : Sat k body P Q) (hf : Sat k fin P (fun _ => True)) :
    Sat k (deferred fin body) P Q := by
  intro h d
  rw [run_deferred]
  split
  · exact hb h d
  · refine ⟨?_, (hb h d).2⟩
    intro e he
    rcases List.mem_append.1 he with he | he
    · exact (hb h d).1 e he
    · exact (hf _ _).1 e he

/-! ## The order of `sort.Strings` -/

theorem strLe_total (a b : Str) : strLe a b ∨ strLe b a := by
  unfold strLe
  induction a generalizing b with
  | nil => cases b <;> simp [strLt]
  | cons x xs ih =>
    cases b with
    | nil => simp [strLt]
    | cons y ys =>
      simp only [strLt]
      by_cases h1 : x.toNat < y.toNat
      · have h2 : ¬ y.toNat < x.toNat := by omega
        simp [h1, h2]
      · by_cases h2 : y.toNat < x.toNat
        · simp [h1, h2]
        · simp only [h1, h2, if_false]
          exact ih ys

theorem strLe_trans (a b c : Str) (hab : strLe a b) (hbc : strLe b c) : strLe a c := by
  unfold strLe at *
  induction a generalizing b c with
  | nil => cases c <;> simp [strLt]
  | cons x xs ih =>
    cases c with
    | nil =>
      cases b with
      | nil => simp [strLt] at hab
      | cons y ys => simp [strLt] at hbc
    | cons z zs =>
      cases b with
      | nil => simp [strLt] at hab
      | cons y ys =>
        simp only [strLt] at hab hbc ⊢
        by_cases h1 : z.toNat < x.toNat
        · exfalso
          by_cases h2 : y.toNat < x.toNat
          · simp [h2] at hab
          · by_cases h3 : z.toNat < y.toNat
            · simp [h3] at hbc
            · omega
        · by_cases h2 : x.toNat < z.toNat
          · simp [h1, h2]
          · simp only [h1, h2, if_false]
            have hxz : x.toNat = z.toNat := by omega
            by_cases h3 : y.toNat < x.toNat
            · simp [h3] at hab
            · by_cases h4 : x.toNat < y.toNat
              · have h5 : z.toNat < y.toNat := by omega
                simp [h5] at hbc
              · have h6 : ¬ z.toNat < y.toNat := by omega
                have h7 : ¬ y.toNat < z.toNat := by omega
                simp only [h3, h4, h6, h7, if_false] at hab hbc
                exact ih ys zs hab hbc

theorem sortStrings_sorted (xs : List Str) : List.Sorted strLe (sortStrings xs) :=
  @List.sorted_insertionSort Str strLe _ ⟨strLe_total⟩ ⟨strLe_trans⟩ xs

theorem sortStrings_perm (xs : List Str) : List.Perm (sortStrings xs) xs :=
  List.perm_insertionSort strLe xs

theorem collectModulePaths_eq (modulesDir : Str) (entries : List DirEntry)
    (modulePaths : List Str) :
    collectModulePaths modulesDir entries modulePaths =
      modulePaths ++ moduleCandidates modulesDir entries := by
  induction entries generalizing modulePaths with
  | nil => simp [collectModulePaths, moduleCandidates]
  | cons e es ih =>
    rw [collectModulePaths]
    simp only [moduleCandidates] at ih ⊢
    cases h1 : e.IsDir <;> cases h2 : HasSuffix e.name ".ko".toList <;>
      simp only [h1, h2, ih, List.filter_cons, Bool.not_false, Bool.not_true, Bool.and_true,
        Bool.and_false, Bool.true_and, Bool.false_and, if_true, if_false, List.map_cons,
        List.append_assoc, List.singleton_append, Bool.false_eq_true]

/-! ## The module loader -/

theorem loadKernelModule_unreadable (k : World) (path : Str) (h : List Event) (d : Bool)
    (e : Errno)
    (hr : k.readFile (h ++ debugEvents d "Loading module: %s".toList [Arg.str path]) path =
      FileRead.err e) :
    loadKernelModule path k h d =
      ⟨Outcome.error e,
       debugEvents d "Loading module: %s".toList [Arg.str path] ++
         [Event.readFile path (FileRead.err e)], d⟩ := by
  simp only [loadKernelModule, run_bind, run_debugln, sysReadFile, run_call, hr, run_fail,
    List.append_nil]

theorem loadKernelModule_empty (k : World) (path : Str) (h : List Event) (d : Bool)
    (hr : k.readFile (h ++ debugEvents d "Loading module: %s".toList [Arg.str path]) path =
      FileRead.ok []) :
    loadKernelModule path k h d =
      ⟨Outcome.panic "index out of range [0] with length 0".toList,
       debugEvents d "Loading module: %s".toList [Arg.str path] ++
         [Event.readFile path (FileRead.ok [])], d⟩ := by
  simp only [loadKernelModule, run_bind, run_debugln, sysReadFile, run_call, hr, run_goPanic,
    List.append_nil, if_true]

theorem loadKernelModule_read (k : World) (path : Str) (h : List Event) (d : Bool)
    (image : Str) (hne : image ≠ [])
    (hr : k.readFile (h ++ debugEvents d "Loading module: %s".toList [Arg.str path]) path =
      FileRead.ok image) :
    loadKernelModule path k h d =
      ⟨if k.initModule (h ++ debugEvents d "Loading module: %s".toList [Arg.str path] ++
            [Event.readFile path (FileRead.ok image)]) image [] ≠ 0
        then Outcome.error (k.initModule (h ++
            debugEvents d "Loading module: %s".toList [Arg.str path] ++
            [Event.readFile path (FileRead.ok image)]) image [])
        else Outcome.ok (),
       debugEvents d "Loading module: %s".toList [Arg.str path] ++
         [Event.readFile path (FileRead.ok image),
          Event.initModule image [] (k.initModule (h ++
            debugEvents d "Loading module: %s".toList [Arg.str path] ++
            [Event.readFile path (FileRead.ok image)]) image [])], d⟩ := by
  simp only [loadKernelModule, run_bind, run_debugln, sysReadFile, run_call, hr, hne,
    if_false, sysInitModule, List.append_assoc]
  split <;> simp

theorem loadKernelModule_blocked (k : World) (path : Str) (h : List Event) (d : Bool)
    (hr : k.readFile (h ++ debugEvents d "Loading module: %s".toList [Arg.str path]) path =
      FileRead.blocks) :
    loadKernelModule path k h d =
      ⟨Outcome.hang,
       debugEvents d "Loading module: %s".toList [Arg.str path] ++
         [Event.readFile path FileRead.blocks], d⟩ := by
  simp only [loadKernelModule, run_bind, run_debugln, sysReadFile, run_call, hr, run_goHang,
    List.append_nil]

theorem loadModulesLoop_attempts (k : World) (paths : List Str)
    (hdata : ∀ h, ∀ p ∈ paths,
      k.readFile h p ≠ FileRead.ok [] ∧ k.readFile h p ≠ FileRead.blocks)
    (h : List Event) (d : Bool) :
    (loadModulesLoop paths k h d).out = Outcome.ok () ∧
    (loadModulesLoop paths k h d).debug = d ∧
    ∃ blocks, List.Forall₂ (LoadAttempt d) paths blocks ∧
      (loadModulesLoop paths k h d).events = blocks.flatten := by
  induction paths generalizing h with
  | nil => exact ⟨rfl, rfl, [], List.Forall₂.nil, rfl⟩
  | cons p rest ih =>
    have ih := ih (fun h2 q hq => hdata h2 q (List.mem_cons_of_mem _ hq))
    cases hr : k.readFile (h ++ debugEvents d "Loading module: %s".toList [Arg.str p]) p with
    | blocks => exact absurd hr (hdata _ p (List.mem_cons_self _ _)).2
    | err e =>
      have hrun := loadKernelModule_unreadable k p h d e hr
      obtain ⟨h1, h2, blocks, hb, hev⟩ := ih (h ++
        (debugEvents d "Loading module: %s".toList [Arg.str p] ++
          [Event.readFile p (FileRead.err e)]) ++ [loadFailureReport p e])
      simp only [loadModulesLoop, run_bind, run_errorOf, hrun, reportLoadFailure, run_emit]
      simp only [loadFailureReport, List.append_assoc, List.singleton_append, List.cons_append,
        List.nil_append] at h1 h2 hev ⊢
      refine ⟨h1, h2, _ :: blocks, List.Forall₂.cons (LoadAttempt.unreadable e) hb, ?_⟩
      rw [hev]
      simp [List.flatten_cons, loadFailureReport]
    | ok image =>
      have hne : image ≠ [] := fun hi => (hdata _ p (List.mem_cons_self _ _)).1 (hi ▸ hr)
      have hrun := loadKernelModule_read k p h d image hne hr
      by_cases h0 : k.initModule (h ++ debugEvents d "Loading module: %s".toList [Arg.str p] ++
          [Event.readFile p (FileRead.ok image)]) image [] = 0
      · simp only [h0, ne_eq, not_true_eq_false, if_false] at hrun
        obtain ⟨h1, h2, blocks, hb, hev⟩ := ih (h ++
          (debugEvents d "Loading module: %s".toList [Arg.str p] ++
            [Event.readFile p (FileRead.ok image), Event.initModule image [] 0]) ++ [])
        simp only [loadModulesLoop, run_bind, run_errorOf, hrun, reportLoadFailure, run_pure]
        simp only [List.append_assoc, List.singleton_append, List.cons_append,
          List.nil_append, List.append_nil] at h1 h2 hev ⊢
        refine ⟨h1, h2, _ :: blocks, List.Forall₂.cons (LoadAttempt.loaded image) hb, ?_⟩
        rw [hev]
        simp [List.flatten_cons]
      · simp only [h0, ne_eq, not_false_eq_true, if_true] at hrun
        obtain ⟨h1, h2, blocks, hb, hev⟩ := ih (h ++
          (debugEvents d "Loading module: %s".toList [Arg.str p] ++
            [Event.readFile p (FileRead.ok image), Event.initModule image []
              (k.initModule (h ++ debugEvents d "Loading module: %s".toList [Arg.str p] ++
                [Event.readFile p (FileRead.ok image)]) image [])]) ++
          [loadFailureReport p (k.initModule (h ++
            debugEvents d "Loading module: %s".toList [Arg.str p] ++
            [Event.readFile p (FileRead.ok image)]) image [])])
        simp only [loadModulesLoop, run_bind, run_errorOf, hrun, reportLoadFailure, run_emit]
        simp only [loadFailureReport, List.append_assoc, List.singleton_append,
          List.cons_append, List.nil_append] at h1 h2 hev ⊢
        refine ⟨h1, h2, _ :: blocks,
          List.Forall₂.cons (LoadAttempt.rejected image _ h0) hb, ?_⟩
        rw [hev]
        simp [List.flatten_cons, loadFailureReport]

theorem loadKernelModules_absent (k : World) (modulesDir : Str) (h : List Event) (d : Bool)
    (hs : IsNotExist (k.stat h modulesDir).toErr = true) :
    loadKernelModules modulesDir k h d =
      ⟨Outcome.ok (), [Event.stat modulesDir (k.stat h modulesDir)], d⟩ := by
  simp only [loadKernelModules, run_bind, sysStat, run_call, hs, if_true, run_pure,
    List.append_nil]

theorem loadKernelModules_listed (k : World) (modulesDir : Str) (h : List Event) (d : Bool)
    (entries : List DirEntry) (hs : IsNotExist (k.stat h modulesDir).toErr = false)
    (hl : k.readDir (h ++ [Event.stat modulesDir (k.stat h modulesDir)]) modulesDir =
      Res.ok entries) :
    loadKernelModules modulesDir k h d =
      ⟨(loadModulesLoop (sortStrings (collectModulePaths modulesDir entries [])) k
          (h ++ [Event.stat modulesDir (k.stat h modulesDir),
            Event.readDir modulesDir (Res.ok entries)]) d).out,
       Event.stat modulesDir (k.stat h modulesDir) ::
         Event.readDir modulesDir (Res.ok entries) ::
         (loadModulesLoop (sortStrings (collectModulePaths modulesDir entries [])) k
          (h ++ [Event.stat modulesDir (k.stat h modulesDir),
            Event.readDir modulesDir (Res.ok entries)]) d).events,
       (loadModulesLoop (sortStrings (collectModulePaths modulesDir entries [])) k
          (h ++ [Event.stat modulesDir (k.stat h modulesDir),
            Event.readDir modulesDir (Res.ok entries)]) d).debug⟩ := by
  simp only [loadKernelModules, run_bind, sysStat, run_call, hs, if_false, sysReadDir, hl,
    List.append_assoc, List.singleton_append, List.cons_append, List.nil_append,
    Bool.false_eq_true]

/-! ## The module loader: C9, C10 -/

/-- C9, as stated, fails: an entry that is not a regular file (here a symbolic link named
`a.ko`) is read and handed to `init_module` all the same, because only directories are
skipped. -/
theorem loadKernelModules_tries_symlink :
    (⟨"a.ko".toList, FileType.symlink⟩ : DirEntry).type ≠ FileType.regular ∧
    (loadKernelModules "/usr/lib/modules".toList
      (quietWorld [] [⟨"a.ko".toList, FileType.symlink⟩] "x".toList) [] false).events =
      [Event.stat "/usr/lib/modules".toList (Res.ok FileType.dir),
       Event.readDir "/usr/lib/modules".toList (Res.ok [⟨"a.ko".toList, FileType.symlink⟩]),
       Event.readFile "/usr/lib/modules/a.ko".toList (FileRead.ok "x".toList),
       Event.initModule "x".toList [] 0] := by
  decide!

/-- C9, amended: for a module directory that does not exist `loadKernelModules` returns no
error after the one `stat`; for a listing of the directory, and as long as the read of every
candidate file (an entry that is not a directory and whose name ends in `.ko`) returns and
none of them reads back empty, it returns no error and tries exactly these candidates, each
once, in ascending order of their full paths; each attempt reads the file and calls
`init_module`, and a failed attempt gives exactly one report and is followed by the remaining
attempts. -/
theorem loadKernelModules_spec (k : World) (modulesDir : Str) (h : List Event) (d : Bool) :
    (IsNotExist (k.stat h modulesDir).toErr = true →
      loadKernelModules modulesDir k h d =
        ⟨Outcome.ok (), [Event.stat modulesDir (k.stat h modulesDir)], d⟩) ∧
    (∀ entries, IsNotExist (k.stat h modulesDir).toErr = false →
      k.readDir (h ++ [Event.stat modulesDir (k.stat h modulesDir)]) modulesDir =
        Res.ok entries →
      (∀ h2, ∀ p ∈ moduleCandidates modulesDir entries,
        k.readFile h2 p ≠ FileRead.ok [] ∧ k.readFile h2 p ≠ FileRead.blocks) →
      (loadKernelModules modulesDir k h d).out = Outcome.ok () ∧
      ∃ paths blocks, List.Sorted strLe paths ∧
        List.Perm paths (moduleCandidates modulesDir entries) ∧
        List.Forall₂ (LoadAttempt d) paths blocks ∧
        (loadKernelModules modulesDir k h d).events =
          Event.stat modulesDir (k.stat h modulesDir) ::
            Event.readDir modulesDir (Res.ok entries) :: blocks.flatten) := by
  refine ⟨loadKernelModules_absent k modulesDir h d, ?_⟩
  intro entries hs hl hdata
  rw [loadKernelModules_listed k modulesDir h d entries hs hl]
  have hperm : List.Perm (sortStrings (collectModulePaths modulesDir entries []))
      (moduleCandidates modulesDir entries) := by
    have := sortStrings_perm (collectModulePaths modulesDir entries [])
    rw [collectModulePaths_eq, List.nil_append] at this
    rw [collectModulePaths_eq, List.nil_append]
    exact this
  obtain ⟨h1, _, blocks, hb, hev⟩ := loadModulesLoop_attempts k
    (sortStrings (collectModulePaths modulesDir entries []))
    (fun h2 p hp => hdata h2 p (hperm.mem_iff.1 hp))
    (h ++ [Event.stat modulesDir (k.stat h modulesDir),
      Event.readDir modulesDir (Res.ok entries)]) d
  refine ⟨h1, sortStrings (collectModulePaths modulesDir entries []), blocks,
    sortStrings_sorted _, hperm, hb, ?_⟩
  simp only [hev]

/-- C9, amended, in a world with an empty `/proc/cmdline` that lists `b.ko`, a symbolic link
`a.ko`, a directory `d.ko` and `c.txt`. -/
theorem loadKernelModules_spec_witness :
    (loadKernelModules "/usr/lib/modules".toList
      (quietWorld []
        [⟨"b.ko".toList, FileType.regular⟩, ⟨"a.ko".toList, FileType.symlink⟩,
         ⟨"d.ko".toList, FileType.dir⟩, ⟨"c.txt".toList, FileType.regular⟩] "x".toList)
      [] false).out = Outcome.ok () ∧
    ∃ paths blocks, List.Sorted strLe paths ∧
      List.Perm paths (moduleCandidates "/usr/lib/modules".toList
        [⟨"b.ko".toList, FileType.regular⟩, ⟨"a.ko".toList, FileType.symlink⟩,
         ⟨"d.ko".toList, FileType.dir⟩, ⟨"c.txt".toList, FileType.regular⟩]) ∧
      List.Forall₂ (LoadAttempt false) paths blocks ∧
      (loadKernelModules "/usr/lib/modules".toList
        (quietWorld []
          [⟨"b.ko".toList, FileType.regular⟩, ⟨"a.ko".toList, FileType.symlink⟩,
           ⟨"d.ko".toList, FileType.dir⟩, ⟨"c.txt".toList, FileType.regular⟩] "x".toList)
        [] false).events =
        Event.stat "/usr/lib/modules".toList (Res.ok FileType.dir) ::
          Event.readDir "/usr/lib/modules".toList (Res.ok
            [⟨"b.ko".toList, FileType.regular⟩, ⟨"a.ko".toList, FileType.symlink⟩,
             ⟨"d.ko".toList, FileType.dir⟩, ⟨"c.txt".toList, FileType.regular⟩]) ::
          blocks.flatten :=
  (loadKernelModules_spec (quietWorld []
      [⟨"b.ko".toList, FileType.regular⟩, ⟨"a.ko".toList, FileType.symlink⟩,
       ⟨"d.ko".toList, FileType.dir⟩, ⟨"c.txt".toList, FileType.regular⟩] "x".toList)
    "/usr/lib/modules".toList [] false).2 _ (by decide) (by rfl)
    (by
      intro h2 p hp
      have hc : p = "/usr/lib/modules/b.ko".toList ∨ p = "/usr/lib/modules/a.ko".toList := by
        have hl : moduleCandidates "/usr/lib/modules".toList
            [⟨"b.ko".toList, FileType.regular⟩, ⟨"a.ko".toList, FileType.symlink⟩,
             ⟨"d.ko".toList, FileType.dir⟩, ⟨"c.txt".toList, FileType.regular⟩] =
            ["/usr/lib/modules/b.ko".toList, "/usr/lib/modules/a.ko".toList] := by decide!
        rw [hl] at hp
        simpa using hp
      show (if p = "/proc/cmdline".toList then FileRead.ok [] else FileRead.ok "x".toList)
          ≠ FileRead.ok [] ∧
        (if p = "/proc/cmdline".toList then FileRead.ok [] else FileRead.ok "x".toList)
          ≠ FileRead.blocks
      rcases hc with hc | hc <;> rw [hc] <;> decide)

/-- When the read of a candidate never returns (here `a.ko` is a FIFO without a writer),
`loadKernelModules` never returns either: nothing is reported and `b.ko` is never tried. -/
theorem loadKernelModules_blocked_read :
    (loadKernelModules "/usr/lib/modules".toList
      { quietWorld [] [⟨"a.ko".toList, FileType.namedPipe⟩, ⟨"b.ko".toList, FileType.regular⟩]
          "x".toList with
        readFile := fun _ path =>
          if path = "/usr/lib/modules/a.ko".toList then FileRead.blocks
          else FileRead.ok "x".toList } [] false) =
      ⟨Outcome.hang,
       [Event.stat "/usr/lib/modules".toList (Res.ok FileType.dir),
        Event.readDir "/usr/lib/modules".toList
          (Res.ok [⟨"a.ko".toList, FileType.namedPipe⟩, ⟨"b.ko".toList, FileType.regular⟩]),
        Event.readFile "/usr/lib/modules/a.ko".toList FileRead.blocks], false⟩ := by
  decide!

/-- C10: with a zero-length module file `loadKernelModule` does not return: taking the
address of `moduleData[0]` panics, the panic ends `loadKernelModules` and `doInit`, and the
module after it (`b.ko`) is never read. -/
theorem empty_module_file_panics :
    (loadKernelModule "/usr/lib/modules/a.ko".toList
      (quietWorld [] [⟨"a.ko".toList, FileType.regular⟩, ⟨"b.ko".toList, FileType.regular⟩] [])
      [] false).out = Outcome.panic "index out of range [0] with length 0".toList ∧
    (loadKernelModules "/usr/lib/modules".toList
      (quietWorld [] [⟨"a.ko".toList, FileType.regular⟩, ⟨"b.ko".toList, FileType.regular⟩] [])
      [] false) =
      ⟨Outcome.panic "index out of range [0] with length 0".toList,
       [Event.stat "/usr/lib/modules".toList (Res.ok FileType.dir),
        Event.readDir "/usr/lib/modules".toList
          (Res.ok [⟨"a.ko".toList, FileType.regular⟩, ⟨"b.ko".toList, FileType.regular⟩]),
        Event.readFile "/usr/lib/modules/a.ko".toList (FileRead.ok [])], false⟩ ∧
    (boot (quietWorld [] [⟨"a.ko".toList, FileType.regular⟩,
      ⟨"b.ko".toList, FileType.regular⟩] [])).out =
      Outcome.panic "index out of range [0] with length 0".toList := by
  decide!

/-! ## Which events each function emits -/

theorem sat_mkdirP (k : World) (path : Str) (P : Event → Prop)
    (h1 : ∀ r, P (Event.stat path r)) (h2 : ∀ r, P (Event.mkdirAll path 0o755 r)) :
    Sat k (mkdirP path) P (fun _ => True) := by
  unfold mkdirP
  refine sat_bind (sat_call k _ _ P h1) (fun info _ => ?_)
  cases IsNotExist info.toErr
  · exact sat_pure k () P _ trivial
  · exact sat_bind (sat_call k _ _ P h2) (fun r _ => sat_check k r P)

theorem sat_mkdirLoop (k : World) (ds : List Str) (P : Event → Prop)
    (h1 : ∀ p r, P (Event.stat p r)) (h2 : ∀ p m r, P (Event.mkdirAll p m r)) :
    Sat k (mkdirLoop ds) P (fun _ => True) := by
  induction ds with
  | nil => exact sat_pure k () P _ trivial
  | cons p rest ih =>
    unfold mkdirLoop
    exact sat_bind (sat_mkdirP k p P (h1 p) (h2 p _)) (fun _ _ => ih)

theorem sat_mountAPIsLoop (k : World) (ms : List APIMount) (P : Event → Prop)
    (hlog : ∀ f a, P (Event.stdout f a))
    (hm : ∀ m ∈ ms, ∀ r, P (Event.mount m.source m.target m.fstype m.flags m.data r)) :
    Sat k (mountAPIsLoop ms) P (fun _ => True) := by
  induction ms with
  | nil => exact sat_pure k () P _ trivial
  | cons m rest ih =>
    unfold mountAPIsLoop
    refine sat_bind (sat_debugln k _ _ P hlog) (fun _ _ => ?_)
    refine sat_bind (sat_call k _ _ P (hm m (List.mem_cons_self _ _))) (fun r _ => ?_)
    exact sat_bind (sat_check k r P)
      (fun _ _ => ih (fun m2 h2 => hm m2 (List.mem_cons_of_mem _ h2)))

theorem sat_readCmdline (k : World) (P : Event → Prop) (data : Str)
    (hcmd : ∀ h, k.readFile h "/proc/cmdline".toList = FileRead.ok data)
    (hlog : ∀ f a, P (Event.stdout f a)) (hr : ∀ p r, P (Event.readFile p r)) :
    Sat k readCmdline P (fun c => c = TrimSpace data) := by
  intro h d
  simp only [readCmdline, run_bind, run_debugln, sysReadFile, run_call, hcmd, run_pure,
    List.append_nil, Outcome.ok.injEq]
  refine ⟨?_, fun a ha => ha.symm⟩
  intro e he
  rcases List.mem_append.1 he with he | he
  · cases d
    · simp [debugEvents] at he
    · simp only [debugEvents, if_true, List.mem_singleton] at he
      rw [he]
      exact hlog _ _
  · rw [List.mem_singleton.1 he]
    exact hr _ _

theorem sat_createDevicesLoop (k : World) (ds : List Device) (P : Event → Prop)
    (hlog : ∀ f a, P (Event.stdout f a)) (h1 : ∀ p r, P (Event.stat p r))
    (h2 : ∀ p m r, P (Event.mkdirAll p m r)) (h3 : ∀ p m v r, P (Event.mknod p m v r)) :
    Sat k (createDevicesLoop ds) P (fun _ => True) := by
  induction ds with
  | nil => exact sat_pure k () P _ trivial
  | cons dev rest ih =>
    unfold createDevicesLoop
    refine sat_bind (sat_debugln k _ _ P hlog) (fun _ _ => ?_)
    refine sat_bind (sat_doWhen k _ _ P (sat_mkdirP k _ P (h1 _) (h2 _ _))) (fun _ _ => ?_)
    refine sat_bind (sat_call k _ _ P (h3 _ _ _)) (fun err _ => ?_)
    exact sat_bind (sat_doWhen k _ _ P (sat_check k err P)) (fun _ _ => ih)

theorem sat_createSymlinksLoop (k : World) (ls : List (Str × Str)) (P : Event → Prop)
    (hlog : ∀ f a, P (Event.stdout f a)) (h1 : ∀ a b r, P (Event.symlink a b r)) :
    Sat k (createSymlinksLoop ls) P (fun _ => True) := by
  induction ls with
  | nil => exact sat_pure k () P _ trivial
  | cons link rest ih =>
    unfold createSymlinksLoop
    refine sat_bind (sat_debugln k _ _ P hlog) (fun _ _ => ?_)
    refine sat_bind (sat_call k _ _ P (h1 _ _)) (fun err _ => ?_)
    exact sat_bind (sat_doWhen k _ _ P (sat_check k err P)) (fun _ _ => ih)

theorem sat_createStaticDevices (k : World) (P : Event → Prop)
    (hlog : ∀ f a, P (Event.stdout f a)) (h1 : ∀ p r, P (Event.stat p r))
    (h2 : ∀ p m r, P (Event.mkdirAll p m r)) (h3 : ∀ p m v r, P (Event.mknod p m v r))
    (h4 : ∀ a b r, P (Event.symlink a b r)) :
    Sat k createStaticDevices P (fun _ => True) := by
  unfold createStaticDevices
  refine sat_bind (sat_debugln k _ _ P hlog) (fun _ _ => ?_)
  exact sat_bind (sat_createDevicesLoop k _ P hlog h1 h2 h3)
    (fun _ _ => sat_createSymlinksLoop k _ P hlog h4)

theorem sat_loadKernelModule (k : World) (path : Str) (P : Event → Prop)
    (hlog : ∀ f a, P (Event.stdout f a)) (h1 : ∀ r, P (Event.readFile path r))
    (h2 : ∀ i p r, P (Event.initModule i p r)) :
    Sat k (loadKernelModule path) P (fun _ => True) := by
  unfold loadKernelModule
  refine sat_bind (sat_debugln k _ _ P hlog) (fun _ _ => ?_)
  refine sat_bind (sat_call k _ _ P h1) (fun r _ => ?_)
  cases r with
  | err e => exact sat_fail k e P _
  | blocks => exact sat_goHang k P _
  | ok image =>
    by_cases hi : image = []
    · simp only [hi, if_true]
      exact sat_goPanic k _ P _
    · simp only [hi, if_false]
      refine sat_bind (sat_call k _ _ P (h2 _ _)) (fun errno _ => ?_)
      by_cases h0 : errno = 0
      · simp only [h0, ne_eq, not_true_eq_false, if_false]
        exact sat_pure k () P _ trivial
      · simp only [h0, ne_eq, not_false_eq_true, if_true]
        exact sat_fail k _ P _

theorem sat_loadModulesLoop (k : World) (paths : List Str) (P : Event → Prop)
    (hlog : ∀ f a, P (Event.stdout f a)) (h1 : ∀ p ∈ paths, ∀ r, P (Event.readFile p r))
    (h2 : ∀ i p r, P (Event.initModule i p r)) (h3 : ∀ f a, P (Event.stderr f a)) :
    Sat k (loadModulesLoop paths) P (fun _ => True) := by
  induction paths with
  | nil => exact sat_pure k () P _ trivial
  | cons p rest ih =>
    unfold loadModulesLoop
    refine sat_bind (sat_errorOf k _ P
      (sat_loadKernelModule k p P hlog (h1 p (List.mem_cons_self _ _)) h2)) (fun err _ => ?_)
    refine sat_bind (Q := fun _ => True) ?_
      (fun _ _ => ih (fun q hq => h1 q (List.mem_cons_of_mem _ hq)))
    cases err with
    | none => exact sat_pure k () P _ trivial
    | some e => exact sat_emit k _ P (h3 _ _)

theorem sat_loadKernelModules (k : World) (modulesDir : Str) (P : Event → Prop)
    (hlog : ∀ f a, P (Event.stdout f a)) (h0 : ∀ p r, P (Event.stat p r))
    (h1 : ∀ entries, ∀ p ∈ moduleCandidates modulesDir entries, ∀ r, P (Event.readFile p r))
    (h2 : ∀ i p r, P (Event.initModule i p r)) (h3 : ∀ f a, P (Event.stderr f a))
    (h4 : ∀ p r, P (Event.readDir p r)) :
    Sat k (loadKernelModules modulesDir) P (fun _ => True) := by
  unfold loadKernelModules
  refine sat_bind (sat_call k _ _ P (h0 _)) (fun info _ => ?_)
  cases IsNotExist info.toErr
  · simp only [Bool.false_eq_true, if_false]
    refine sat_bind (sat_call k _ _ P (h4 _)) (fun r _ => ?_)
    cases r with
    | err e => exact sat_fail k e P _
    | ok entries =>
      refine sat_loadModulesLoop k _ P hlog ?_ h2 h3
      intro p hp
      rw [collectModulePaths_eq, List.nil_append] at hp
      exact h1 entries p ((sortStrings_perm _).mem_iff.1 hp)
  · exact sat_pure k () P _ trivial

theorem sat_mountVirtiofs (k : World) (tag mountpoint : Str) (readOnly : Bool)
    (P : Event → Prop) (hlog : ∀ f a, P (Event.stdout f a))
    (hm : ∀ r, P (Event.mount tag mountpoint "virtiofs".toList
      (if readOnly then MS_RDONLY else 0) [] r)) :
    Sat k (mountVirtiofs tag mountpoint readOnly) P (fun _ => True) := by
  unfold mountVirtiofs
  refine sat_bind (sat_debugln k _ _ P hlog) (fun _ _ => ?_)
  exact sat_bind (sat_call k _ _ P hm) (fun r _ => sat_check k r P)

theorem sat_moveMount (k : World) (src dest : Str) (P : Event → Prop)
    (hlog : ∀ f a, P (Event.stdout f a))
    (hm : ∀ r, P (Event.mount src dest [] MS_MOVE [] r)) :
    Sat k (moveMount src dest) P (fun _ => True) := by
  unfold moveMount
  refine sat_bind (sat_debugln k _ _ P hlog) (fun _ _ => ?_)
  exact sat_bind (sat_call k _ _ P hm) (fun r _ => sat_check k r P)

theorem sat_additionalMountsLoop (k : World) (ms : List MountEntry) (P : Event → Prop)
    (hlog : ∀ f a, P (Event.stdout f a)) (h1 : ∀ p r, P (Event.stat p r))
    (h2 : ∀ p m r, P (Event.mkdirAll p m r))
    (hm : ∀ m ∈ ms, ∀ r, P (Event.mount m.tag (Join "/run/mnt".toList m.tag)
      "virtiofs".toList (if m.readOnly then MS_RDONLY else 0) [] r)) :
    Sat k (additionalMountsLoop ms) P (fun _ => True) := by
  induction ms with
  | nil => exact sat_pure k () P _ trivial
  | cons m rest ih =>
    unfold additionalMountsLoop
    refine sat_bind (sat_mkdirP k _ P (h1 _) (h2 _ _)) (fun _ _ => ?_)
    refine sat_bind (sat_mountVirtiofs k _ _ _ P hlog (hm m (List.mem_cons_self _ _)))
      (fun _ _ => ih (fun m2 h2 => hm m2 (List.mem_cons_of_mem _ h2)))

theorem sat_relocateOrUnmount (k : World) (mountPoint dest : Str) (P : Event → Prop)
    (hlog : ∀ f a, P (Event.stdout f a)) (h1 : ∀ p r, P (Event.stat p r))
    (h2 : ∀ s t r, P (Event.mount s t [] MS_MOVE [] r))
    (h3 : ∀ t f r, P (Event.unmount t f r)) :
    Sat k (relocateOrUnmount mountPoint dest) P (fun _ => True) := by
  unfold relocateOrUnmount
  refine sat_bind (sat_call k _ _ P (h1 _)) (fun info _ => ?_)
  by_cases he : info.toErr = none
  · simp only [he, if_true]
    exact sat_moveMount k _ _ P hlog (h2 _ _)
  · simp only [he, if_false]
    exact sat_bind (sat_call k _ _ P (h3 _ _)) (fun r _ => sat_check k r P)

theorem sat_survivingMountsLoop (k : World) (mps : List Str) (P : Event → Prop)
    (hlog : ∀ f a, P (Event.stdout f a)) (h1 : ∀ p r, P (Event.stat p r))
    (h2 : ∀ s t r, P (Event.mount s t [] MS_MOVE [] r))
    (h3 : ∀ t f r, P (Event.unmount t f r)) :
    Sat k (survivingMountsLoop mps) P (fun _ => True) := by
  induction mps with
  | nil => exact sat_pure k () P _ trivial
  | cons mp rest ih =>
    unfold survivingMountsLoop
    exact sat_bind (sat_relocateOrUnmount k _ _ P hlog h1 h2 h3) (fun _ _ => ih)

theorem sat_switchRoot (k : World) (newroot : Str) (P : Event → Prop)
    (hlog : ∀ f a, P (Event.stdout f a)) (h1 : ∀ p r, P (Event.chdir p r))
    (h2 : ∀ p r, P (Event.openFile p r)) (h3 : ∀ p, P (Event.closeFile p))
    (h4 : ∀ s t r, P (Event.mount s t [] MS_MOVE [] r))
    (h5 : ∀ p r, P (Event.chroot p r)) :
    Sat k (switchRoot newroot) P (fun _ => True) := by
  unfold switchRoot
  refine sat_bind (sat_debugln k _ _ P hlog) (fun _ _ => ?_)
  refine sat_bind (sat_call k _ _ P (h1 _)) (fun r _ => ?_)
  refine sat_bind (sat_check k r P) (fun _ _ => ?_)
  refine sat_bind (sat_call k _ _ P (h2 _)) (fun r _ => ?_)
  refine sat_bind (sat_check k r P) (fun _ _ => ?_)
  refine sat_deferred k _ _ P _ ?_ (sat_emit k _ P (h3 _))
  refine sat_bind (sat_moveMount k _ _ P hlog (h4 _ _)) (fun _ _ => ?_)
  refine sat_bind (sat_call k _ _ P (h5 _)) (fun r _ => ?_)
  refine sat_bind (sat_check k r P) (fun _ _ => ?_)
  exact sat_bind (sat_call k _ _ P (h1 _)) (fun r _ => sat_check k r P)

theorem sat_execInit (k : World) (initProgram : Str) (P : Event → Prop)
    (h1 : ∀ a v e r, P (Event.exec a v e r)) (h2 : ∀ f a, P (Event.stderr f a)) :
    Sat k (execInit initProgram) P (fun _ => True) := by
  unfold execInit
  refine sat_bind (Q := fun _ => True) ?_ (fun envv _ => ?_)
  · intro h d
    simp
  refine sat_bind (sat_call k _ _ P (h1 _ _ _)) (fun r _ => ?_)
  cases r with
  | none => exact sat_pure k () P _ trivial
  | some e => exact sat_bind (sat_emit k _ P (h2 _ _)) (fun _ _ => sat_fail k e P _)

theorem sat_setDebug (k : World) (b : Bool) (P : Event → Prop) :
    Sat k (setDebug b) P (fun _ => True) := by
  intro h d
  simp

theorem apiMounts_plain :
    ∀ m ∈ apiMounts, m.fstype ≠ "virtiofs".toList ∧ m.flags ≠ MS_MOVE := by
  decide

/-- Every event of `doInit` is a plain one or a virtiofs mount request of known origin. -/
theorem doInit_shareOrigin (k : World) (data : Str)
    (hcmd : ∀ h, k.readFile h "/proc/cmdline".toList = FileRead.ok data) :
    Sat k doInit (ShareOrigin (TrimSpace data)) (fun _ => True) := by
  have hlog : ∀ f a, ShareOrigin (TrimSpace data) (Event.stdout f a) := fun _ _ => Or.inl rfl
  have hstat : ∀ p r, ShareOrigin (TrimSpace data) (Event.stat p r) := fun _ _ => Or.inl rfl
  have hmk : ∀ p m r, ShareOrigin (TrimSpace data) (Event.mkdirAll p m r) :=
    fun _ _ _ => Or.inl rfl
  have hmove : ∀ s t r, ShareOrigin (TrimSpace data) (Event.mount s t [] MS_MOVE [] r) :=
    fun _ _ _ => Or.inl rfl
  unfold doInit
  refine sat_bind (sat_mkdirLoop k _ _ hstat hmk) (fun _ _ => ?_)
  refine sat_bind (sat_mountAPIsLoop k _ _ hlog (fun m hm r => Or.inl ?_)) (fun _ _ => ?_)
  · simp only [Event.isVirtiofsMount, decide_eq_false_iff_not]
    exact (apiMounts_plain m hm).1
  refine sat_bind (sat_mkdirP k _ _ (hstat _) (hmk _ _)) (fun _ _ => ?_)
  refine sat_bind (sat_readCmdline k _ data hcmd hlog (fun _ _ => Or.inl rfl))
    (fun cmdline hc => ?_)
  subst hc
  refine sat_bind (sat_doWhen k _ _ _ (sat_setDebug k _ _)) (fun _ _ => ?_)
  refine sat_bind (sat_createStaticDevices k _ hlog hstat hmk (fun _ _ _ _ => Or.inl rfl)
    (fun _ _ _ => Or.inl rfl)) (fun _ _ => ?_)
  refine sat_bind (sat_loadKernelModules k _ _ hlog hstat (fun _ _ _ _ => Or.inl rfl)
    (fun _ _ _ => Or.inl rfl) (fun _ _ => Or.inl rfl) (fun _ _ => Or.inl rfl))
    (fun _ _ => ?_)
  refine sat_bind (sat_mountVirtiofs k _ _ _ _ hlog (fun r => Or.inr (Or.inl ⟨r, rfl⟩)))
    (fun _ _ => ?_)
  refine sat_bind (sat_additionalMountsLoop k _ _ hlog hstat hmk
    (fun m hm r => Or.inr (Or.inr ⟨m, hm, r, rfl⟩))) (fun _ _ => ?_)
  refine sat_bind (sat_survivingMountsLoop k _ _ hlog hstat hmove (fun _ _ _ => Or.inl rfl))
    (fun _ _ => ?_)
  refine sat_bind (sat_switchRoot k _ _ hlog (fun _ _ => Or.inl rfl) (fun _ _ => Or.inl rfl)
    (fun _ => Or.inl rfl) hmove (fun _ _ => Or.inl rfl)) (fun _ _ => ?_)
  refine sat_bind (sat_debugln k _ _ _ hlog) (fun _ _ => ?_)
  exact sat_execInit k _ _ (fun _ _ _ _ => Or.inl rfl) (fun _ _ => Or.inl rfl)

/-! ## The first virtiofs request -/

theorem firstIs_of_none (p : Event → Bool) (S R : Event → Prop) (evs : List Event)
    (hn : ∀ x ∈ evs, p x = false) : FirstIs p S R evs := by
  intro pre ev post he hp _
  have : p ev = false := hn ev (by rw [he]; simp)
  rw [hp] at this
  exact absurd this (by simp)

theorem firstIs_cons_hit (p : Event → Bool) (S R : Event → Prop) (e : Event)
    (rest : List Event) (hp : p e = true) (hr : R e) : FirstIs p S R (e :: rest) := by
  intro pre ev post he _ hpre
  cases pre with
  | nil =>
    simp only [List.nil_append, List.cons.injEq] at he
    rw [← he.1]
    exact ⟨hr, fun x hx => absurd hx (by simp)⟩
  | cons x xs =>
    simp only [List.cons_append, List.cons.injEq] at he
    have := hpre x (List.mem_cons_self _ _)
    rw [← he.1, hp] at this
    exact absurd this (by simp)

theorem firstIs_append (p : Event → Bool) (S R : Event → Prop) (xs ys : List Event)
    (hn : ∀ x ∈ xs, p x = false ∧ S x) (hy : FirstIs p S R ys) :
    FirstIs p S R (xs ++ ys) := by
  induction xs with
  | nil => simpa using hy
  | cons x xs ih =>
    intro pre ev post he hp hpre
    cases pre with
    | nil =>
      simp only [List.cons_append, List.nil_append, List.cons.injEq] at he
      have := (hn x (List.mem_cons_self _ _)).1
      rw [he.1, hp] at this
      exact absurd this (by simp)
    | cons z zs =>
      simp only [List.cons_append, List.cons.injEq] at he
      have h2 := ih (fun y hy2 => hn y (List.mem_cons_of_mem _ hy2)) zs ev post he.2 hp
        (fun y hy2 => hpre y (List.mem_cons_of_mem _ hy2))
      refine ⟨h2.1, ?_⟩
      intro y hy2
      rcases List.mem_cons.1 hy2 with hy3 | hy3
      · rw [hy3, ← he.1]
        exact (hn x (List.mem_cons_self _ _)).2
      · exact h2.2 y hy3

theorem firstIs_bind {α β : Type} (p : Event → Bool) (S R : Event → Prop) (k : World)
    (m : Init α) (f : α → Init β) (Q : α → Prop)
    (hm : Sat k m (fun e => p e = false ∧ S e) Q)
    (hf : ∀ a, Q a → ∀ h d, FirstIs p S R (f a k h d).events) :
    ∀ h d, FirstIs p S R ((m >>= f) k h d).events := by
  intro h d
  rw [run_bind]
  cases ho : (m k h d).out with
  | ok a => exact firstIs_append p S R _ _ (hm h d).1 (hf a ((hm h d).2 a ho) _ _)
  | error e => exact firstIs_of_none p S R _ (fun x hx => ((hm h d).1 x hx).1)
  | panic msg => exact firstIs_of_none p S R _ (fun x hx => ((hm h d).1 x hx).1)
  | hang => exact firstIs_of_none p S R _ (fun x hx => ((hm h d).1 x hx).1)

/-- A piece of the program whose first request is of kind `p`: whatever follows it, the
first event of kind `p` is that request. -/
theorem firstIs_bind_hit {α β : Type} (p : Event → Bool) (S R : Event → Prop) (k : World)
    (m : Init α) (f : α → Init β)
    (hm : ∀ h d, ∃ dbg e rest, (m k h d).events = dbg ++ e :: rest ∧
      (∀ x ∈ dbg, p x = false ∧ S x) ∧ p e = true ∧ R e) :
    ∀ h d, FirstIs p S R ((m >>= f) k h d).events := by
  intro h d
  obtain ⟨dbg, e, rest, hev, hdbg, hp, hr⟩ := hm h d
  rw [run_bind]
  cases ho : (m k h d).out with
  | ok a =>
    simp only [hev, List.append_assoc, List.cons_append]
    exact firstIs_append p S R _ _ hdbg (firstIs_cons_hit p S R _ _ hp hr)
  | error e0 =>
    simp only [hev]
    exact firstIs_append p S R _ _ hdbg (firstIs_cons_hit p S R _ _ hp hr)
  | panic msg =>
    simp only [hev]
    exact firstIs_append p S R _ _ hdbg (firstIs_cons_hit p S R _ _ hp hr)
  | hang =>
    simp only [hev]
    exact firstIs_append p S R _ _ hdbg (firstIs_cons_hit p S R _ _ hp hr)

theorem debugEvents_log (d : Bool) (format : Str) (args : List Arg) :
    ∀ x ∈ debugEvents d format args, ∃ f a, x = Event.stdout f a := by
  intro x hx
  cases d
  · simp [debugEvents] at hx
  · simp only [debugEvents, if_true, List.mem_singleton] at hx
    exact ⟨_, _, hx⟩

theorem mountVirtiofs_first (k : World) (tag mountpoint : Str) (readOnly : Bool)
    (h : List Event) (d : Bool) :
    ∃ dbg r rest, (mountVirtiofs tag mountpoint readOnly k h d).events =
      dbg ++ Event.mount tag mountpoint "virtiofs".toList
        (if readOnly then MS_RDONLY else 0) [] r :: rest ∧
      ∀ x ∈ dbg, ∃ f a, x = Event.stdout f a := by
  simp only [mountVirtiofs, run_bind, run_debugln, sysMount, run_call]
  cases k.mount (h ++ debugEvents d "Mounting %s at %s (read_only: %v)".toList
      [Arg.str tag, Arg.str mountpoint, Arg.bool readOnly]) tag mountpoint
      "virtiofs".toList (if readOnly then MS_RDONLY else 0) [] with
  | none =>
    exact ⟨debugEvents d "Mounting %s at %s (read_only: %v)".toList
      [Arg.str tag, Arg.str mountpoint, Arg.bool readOnly], none, [], by simp,
      debugEvents_log _ _ _⟩
  | some e =>
    exact ⟨debugEvents d "Mounting %s at %s (read_only: %v)".toList
      [Arg.str tag, Arg.str mountpoint, Arg.bool readOnly], some e, [], by simp,
      debugEvents_log _ _ _⟩

theorem mountAPIsLoop_first (k : World) (m : APIMount) (ms : List APIMount)
    (h : List Event) (d : Bool) :
    ∃ dbg r rest, (mountAPIsLoop (m :: ms) k h d).events =
      dbg ++ Event.mount m.source m.target m.fstype m.flags m.data r :: rest ∧
      ∀ x ∈ dbg, ∃ f a, x = Event.stdout f a := by
  simp only [mountAPIsLoop, run_bind, run_debugln, sysMount, run_call]
  cases k.mount (h ++ debugEvents d "Mounting %s".toList [Arg.str m.target]) m.source
      m.target m.fstype m.flags m.data with
  | none =>
    simp only [run_check_none, List.append_nil, List.nil_append, List.append_assoc,
      List.singleton_append]
    exact ⟨_, none, _, rfl, debugEvents_log _ _ _⟩
  | some e =>
    exact ⟨debugEvents d "Mounting %s".toList [Arg.str m.target], some e, [], by simp,
      debugEvents_log _ _ _⟩

/-- The first virtiofs mount request of `doInit` is the one of the root-mount step: the
resolved root tag at `/sysroot` with exactly the flag `MS_RDONLY`. -/
theorem doInit_first_virtiofs (k : World) (data : Str)
    (hcmd : ∀ h, k.readFile h "/proc/cmdline".toList = FileRead.ok data) :
    FirstIs Event.isVirtiofsMount (fun _ => True)
      (fun e => ∃ r, e = Event.mount (resolveRootfsTag (TrimSpace data)) "/sysroot".toList
        "virtiofs".toList MS_RDONLY [] r) (doInit k [] false).events := by
  let P : Event → Prop := fun e => e.isVirtiofsMount = false ∧ True
  have hlog : ∀ f a, P (Event.stdout f a) := fun _ _ => ⟨rfl, trivial⟩
  have hstat : ∀ p r, P (Event.stat p r) := fun _ _ => ⟨rfl, trivial⟩
  have hmk : ∀ p m r, P (Event.mkdirAll p m r) := fun _ _ _ => ⟨rfl, trivial⟩
  unfold doInit
  refine firstIs_bind _ _ _ k _ _ _ (sat_mkdirLoop k _ P hstat hmk) (fun _ _ => ?_) [] false
  refine firstIs_bind _ _ _ k _ _ _ (sat_mountAPIsLoop k _ P hlog (fun m hm r => ⟨?_, trivial⟩))
    (fun _ _ => ?_)
  · simp only [Event.isVirtiofsMount, decide_eq_false_iff_not]
    exact (apiMounts_plain m hm).1
  refine firstIs_bind _ _ _ k _ _ _ (sat_mkdirP k _ P (hstat _) (hmk _ _)) (fun _ _ => ?_)
  refine firstIs_bind _ _ _ k _ _ _
    (sat_readCmdline k P data hcmd hlog (fun _ _ => ⟨rfl, trivial⟩)) (fun cmdline hc => ?_)
  subst hc
  refine firstIs_bind _ _ _ k _ _ _ (sat_doWhen k _ _ P (sat_setDebug k _ P)) (fun _ _ => ?_)
  refine firstIs_bind _ _ _ k _ _ _ (sat_createStaticDevices k P hlog hstat hmk
    (fun _ _ _ _ => ⟨rfl, trivial⟩) (fun _ _ _ => ⟨rfl, trivial⟩)) (fun _ _ => ?_)
  refine firstIs_bind _ _ _ k _ _ _ (sat_loadKernelModules k _ P hlog hstat
    (fun _ _ _ _ => ⟨rfl, trivial⟩) (fun _ _ _ => ⟨rfl, trivial⟩) (fun _ _ => ⟨rfl, trivial⟩)
    (fun _ _ => ⟨rfl, trivial⟩)) (fun _ _ => ?_)
  refine firstIs_bind_hit _ _ _ k _ _ (fun h d => ?_)
  obtain ⟨dbg, r, rest, hev2, hdbg⟩ := mountVirtiofs_first k
    (resolveRootfsTag (TrimSpace data)) "/sysroot".toList true h d
  refine ⟨dbg, _, rest, hev2, ?_, by simp [Event.isVirtiofsMount], r, rfl⟩
  intro x hx
  obtain ⟨f, a, rfl⟩ := hdbg x hx
  exact ⟨rfl, trivial⟩

/-! ## Requests of successful runs -/

theorem requests_append (a b : List Event) : requests (a ++ b) = requests a ++ requests b := by
  simp [requests]

theorem requests_debugEvents (d : Bool) (format : Str) (args : List Arg) :
    requests (debugEvents d format args) = [] := by
  cases d <;> simp [requests, debugEvents, Event.isLog]

theorem mem_requests {e : Event} {evs : List Event} (h : e ∈ requests evs) : e ∈ evs :=
  (List.mem_filter.1 h).1

theorem succ_bind {α β : Type} {k : World} {m : Init α} {f : α → Init β}
    {S1 : α → List Event → Prop} {S : β → List Event → Prop} (hm : Succ k m S1)
    (hf : ∀ a, Succ k (f a) (fun b e2 => ∀ e1, S1 a e1 → S b (e1 ++ e2))) :
    Succ k (m >>= f) S := by
  intro h d b ho
  rw [run_bind] at ho ⊢
  cases hmo : (m k h d).out with
  | ok a =>
    simp only [hmo] at ho ⊢
    rw [requests_append]
    exact hf a _ _ b ho _ (hm h d a hmo)
  | error e =>
    simp only [hmo] at ho
    exact absurd ho (by simp)
  | panic msg =>
    simp only [hmo] at ho
    exact absurd ho (by simp)
  | hang =>
    simp only [hmo] at ho
    exact absurd ho (by simp)

theorem succ_weaken {α : Type} {k : World} {m : Init α} {S S2 : α → List Event → Prop}
    (hm : Succ k m S) (hs : ∀ a evs, S a evs → S2 a evs) : Succ k m S2 :=
  fun h d a ho => hs a _ (hm h d a ho)

theorem succ_of_sat {α : Type} {k : World} {m : Init α} {P : Event → Prop} {Q : α → Prop}
    (hm : Sat k m P Q) : Succ k m (fun a evs => (∀ e ∈ evs, P e) ∧ Q a) :=
  fun h d a ho => ⟨fun e he => (hm h d).1 e (mem_requests he), (hm h d).2 a ho⟩

theorem isNotExist_iff (err : Option Errno) : IsNotExist err = true ↔ err = some ENOENT := by
  simp [IsNotExist]

theorem succ_mkdirP (k : World) (path : Str) :
    Succ k (mkdirP path) (fun _ evs => DirReady path evs) := by
  intro h d a ho
  simp only [mkdirP, run_bind, sysStat, run_call] at ho ⊢
  cases hne : IsNotExist (k.stat h path).toErr with
  | false =>
    simp only [hne, Bool.false_eq_true, if_false, run_pure, List.append_nil]
    simp only [requests, Event.isLog, Bool.not_false, List.filter_cons_of_pos,
      List.filter_nil]
    exact DirReady.present _ hne
  | true =>
    have hs : k.stat h path = Res.err ENOENT := by
      cases hk : k.stat h path with
      | ok t => rw [hk] at hne; simp [Res.toErr, IsNotExist] at hne
      | err e =>
        rw [hk] at hne
        rw [(Option.some.inj ((isNotExist_iff _).1 hne) : e = ENOENT)]
    simp only [hne, if_true, run_bind, sysMkdirAll, run_call] at ho ⊢
    cases hmk : k.mkdirAll (h ++ [Event.stat path (k.stat h path)]) path 0o755 with
    | none =>
      simp only [hmk, run_check_none, List.append_nil, List.singleton_append, hs]
      simp only [requests, Event.isLog, Bool.not_false, List.filter_cons_of_pos,
        List.filter_nil]
      exact DirReady.created
    | some e =>
      simp only [hmk, run_check_some] at ho
      exact absurd ho (by simp)

theorem succ_mountVirtiofs (k : World) (tag mountpoint : Str) (readOnly : Bool) :
    Succ k (mountVirtiofs tag mountpoint readOnly)
      (fun _ evs => evs = [Event.mount tag mountpoint "virtiofs".toList
        (if readOnly then MS_RDONLY else 0) [] none]) := by
  intro h d a ho
  simp only [mountVirtiofs, run_bind, run_debugln, sysMount, run_call] at ho ⊢
  cases hm : k.mount (h ++ debugEvents d "Mounting %s at %s (read_only: %v)".toList
      [Arg.str tag, Arg.str mountpoint, Arg.bool readOnly]) tag mountpoint
      "virtiofs".toList (if readOnly then MS_RDONLY else 0) [] with
  | none =>
    simp only [hm, run_check_none, List.append_nil, requests_append, requests_debugEvents,
      List.nil_append]
    simp [requests, Event.isLog]
  | some e =>
    simp only [hm, run_check_some] at ho
    exact absurd ho (by simp)

theorem succ_moveMount (k : World) (src dest : Str) :
    Succ k (moveMount src dest)
      (fun _ evs => evs = [Event.mount src dest [] MS_MOVE [] none]) := by
  intro h d a ho
  simp only [moveMount, run_bind, run_debugln, sysMount, run_call] at ho ⊢
  cases hm : k.mount (h ++ debugEvents d "Moving %s to %s".toList
      [Arg.str src, Arg.str dest]) src dest [] MS_MOVE [] with
  | none =>
    simp only [hm, run_check_none, List.append_nil, requests_append, requests_debugEvents,
      List.nil_append]
    simp [requests, Event.isLog]
  | some e =>
    simp only [hm, run_check_some] at ho
    exact absurd ho (by simp)

theorem succ_call_check (k : World) (reply : World → List Event → Option Errno)
    (ev : Option Errno → Event) (hlog : ∀ r, (ev r).isLog = false) :
    Succ k (call reply ev >>= check) (fun _ evs => evs = [ev none]) := by
  intro h d a ho
  simp only [run_bind, run_call] at ho ⊢
  cases hm : reply k h with
  | none =>
    simp only [hm, run_check_none, List.append_nil]
    simp [requests, hlog]
  | some e =>
    simp only [hm, run_check_some] at ho
    exact absurd ho (by simp)

theorem succ_debugln (k : World) (format : Str) (args : List Arg) :
    Succ k (debugln format args) (fun _ evs => evs = []) := by
  intro h d a _
  simp only [run_debugln, requests_debugEvents]

theorem succ_additionalMountsLoop (k : World) (ms : List MountEntry) :
    Succ k (additionalMountsLoop ms)
      (fun _ evs => ∃ blocks, List.Forall₂ ShareMount ms blocks ∧ evs = blocks.flatten) := by
  induction ms with
  | nil =>
    intro h d a _
    exact ⟨[], List.Forall₂.nil, rfl⟩
  | cons m rest ih =>
    unfold additionalMountsLoop
    refine succ_bind (succ_mkdirP k _) (fun _ => ?_)
    refine succ_bind (succ_mountVirtiofs k _ _ _) (fun _ => ?_)
    refine succ_weaken ih ?_
    rintro _ evs ⟨blocks, hb, rfl⟩ e2 he2 e1 he1
    subst he2
    exact ⟨_ :: blocks, List.Forall₂.cons (ShareMount.mk e1 he1) hb, by simp⟩

theorem succ_relocateOrUnmount (k : World) (mountPoint : Str) :
    Succ k (relocateOrUnmount mountPoint (Join "/sysroot".toList mountPoint))
      (fun _ evs => Relocation mountPoint evs) := by
  unfold relocateOrUnmount
  intro h d a ho
  rw [run_bind] at ho ⊢
  simp only [sysStat, run_call] at ho ⊢
  cases hs : k.stat h (Join "/sysroot".toList mountPoint) with
  | ok found =>
    simp only [hs, Res.toErr, if_true] at ho ⊢
    rw [requests_append, succ_moveMount k _ _ _ _ a ho]
    exact Relocation.moved found
  | err e =>
    simp only [hs, Res.toErr, if_false, reduceCtorEq] at ho ⊢
    have hu : requests ((sysUnmount mountPoint 0 >>= fun r => check r) k
        (h ++ [Event.stat (Join "/sysroot".toList mountPoint) (Res.err e)]) d).events =
        [Event.unmount mountPoint 0 none] :=
      succ_call_check k (fun k h => k.unmount h mountPoint 0) (Event.unmount mountPoint 0)
        (fun _ => rfl) _ _ a ho
    rw [requests_append, hu]
    exact Relocation.unmounted e

theorem succ_survivingMountsLoop (k : World) (mps : List Str) :
    Succ k (survivingMountsLoop mps)
      (fun _ evs => ∃ blocks, List.Forall₂ Relocation mps blocks ∧ evs = blocks.flatten) := by
  induction mps with
  | nil =>
    intro h d a _
    exact ⟨[], List.Forall₂.nil, rfl⟩
  | cons mp rest ih =>
    unfold survivingMountsLoop
    refine succ_bind (succ_relocateOrUnmount k _) (fun _ => ?_)
    refine succ_weaken ih ?_
    rintro _ evs ⟨blocks, hb, rfl⟩ e1 he1
    exact ⟨_ :: blocks, List.Forall₂.cons he1 hb, by simp⟩

theorem succ_call {ρ : Type} (k : World) (reply : World → List Event → ρ) (ev : ρ → Event)
    (hlog : ∀ r, (ev r).isLog = false) :
    Succ k (call reply ev) (fun r evs => evs = [ev r]) := by
  intro h d a ho
  simp only [run_call, Outcome.ok.injEq] at ho ⊢
  subst ho
  simp [requests, hlog]

theorem succ_check (k : World) (err : Option Errno) :
    Succ k (check err) (fun _ evs => err = none ∧ evs = []) := by
  intro h d a ho
  cases err with
  | none => exact ⟨rfl, rfl⟩
  | some e =>
    simp only [run_check_some] at ho
    exact absurd ho (by simp)

theorem succ_deferred_emit {α : Type} (k : World) (ev : Event) (body : Init α)
    (S : α → List Event → Prop) (hb : Succ k body S) :
    Succ k (deferred (emit ev) body)
      (fun a evs => ∃ e1, S a e1 ∧ evs = e1 ++ requests [ev]) := by
  intro h d a ho
  rw [run_deferred] at ho ⊢
  cases hbo : (body k h d).out with
  | hang =>
    simp only [hbo, Outcome.isHang, if_true] at ho
    exact absurd ho (by simp)
  | ok b =>
    simp only [hbo, Outcome.isHang, Bool.false_eq_true, if_false, run_emit] at ho ⊢
    exact ⟨_, hb h d a (hbo.trans ho), requests_append _ _⟩
  | error e =>
    simp only [hbo, Outcome.isHang, Bool.false_eq_true, if_false] at ho
    exact absurd ho (by simp)
  | panic msg =>
    simp only [hbo, Outcome.isHang, Bool.false_eq_true, if_false] at ho
    exact absurd ho (by simp)

theorem succ_switchRoot (k : World) (newroot : Str) :
    Succ k (switchRoot newroot)
      (fun _ evs => evs =
        [Event.chdir newroot none, Event.openFile ['/'] none,
         Event.mount ['.'] ['/'] [] MS_MOVE [] none, Event.chroot ['.'] none,
         Event.chdir ['/'] none, Event.closeFile ['/']]) := by
  unfold switchRoot
  refine succ_bind (succ_debugln k _ _) (fun _ => ?_)
  refine succ_bind (succ_call k _ _ (fun _ => rfl)) (fun r1 => ?_)
  refine succ_bind (succ_check k r1) (fun _ => ?_)
  refine succ_bind (succ_call k _ _ (fun _ => rfl)) (fun r2 => ?_)
  refine succ_bind (succ_check k r2) (fun _ => ?_)
  refine succ_weaken (succ_deferred_emit k _ _
    (fun _ evs => evs = [Event.mount ['.'] ['/'] [] MS_MOVE [] none, Event.chroot ['.'] none,
      Event.chdir ['/'] none]) ?_) ?_
  · refine succ_bind (succ_moveMount k _ _) (fun _ => ?_)
    refine succ_bind (succ_call k _ _ (fun _ => rfl)) (fun r3 => ?_)
    refine succ_bind (succ_check k r3) (fun _ => ?_)
    refine succ_bind (succ_call k _ _ (fun _ => rfl)) (fun r4 => ?_)
    refine succ_weaken (succ_check k r4) ?_
    rintro _ evs ⟨rfl, rfl⟩ e4 rfl e3 ⟨rfl, rfl⟩ e2 rfl e1 rfl
    rfl
  · rintro _ evs ⟨e1, rfl, rfl⟩ e5 ⟨rfl, rfl⟩ e4 rfl e3 ⟨rfl, rfl⟩ e2 rfl e0 rfl
    rfl

theorem succ_execInit (k : World) (initProgram : Str) :
    Succ k (execInit initProgram)
      (fun _ evs => ∃ envv, evs = [Event.exec initProgram [Base initProgram] envv none]) := by
  intro h d a ho
  simp only [execInit, run_bind, run_getEnviron, sysExec, run_call, List.append_nil,
    List.nil_append] at ho ⊢
  cases hx : k.exec h initProgram [Base initProgram] (k.environ h) with
  | none =>
    simp only [hx, run_pure, List.append_nil]
    exact ⟨k.environ h, by simp [requests, Event.isLog]⟩
  | some e =>
    simp only [hx, run_bind, run_emit, run_fail] at ho
    exact absurd ho (by simp)

theorem sat_readCmdline_any (k : World) (P : Event → Prop)
    (hlog : ∀ f a, P (Event.stdout f a)) (hr : ∀ p r, P (Event.readFile p r)) :
    Sat k readCmdline P (fun _ => True) := by
  unfold readCmdline
  refine sat_bind (sat_debugln k _ _ P hlog) (fun _ _ => ?_)
  refine sat_bind (sat_call k _ _ P (hr _)) (fun r _ => ?_)
  cases r with
  | err e => exact sat_fail k e P _
  | blocks => exact sat_goHang k P _
  | ok data => exact sat_pure k _ P _ trivial

theorem pathElems_single (tag : Str) (h1 : '/' ∉ tag) : pathElems tag = [tag] := by
  unfold pathElems
  apply List.splitOnP_eq_single
  intro x hx hp
  simp only [beq_iff_eq] at hp
  exact h1 (hp ▸ hx)

theorem join_run_mnt (tag : Str) (h0 : tag ≠ []) (h1 : '/' ∉ tag) (h2 : tag ≠ ['.'])
    (h3 : tag ≠ ['.', '.']) :
    Join "/run/mnt".toList tag = "/run/mnt/".toList ++ tag := by
  have hp : pathElems ("/run/mnt".toList ++ '/' :: tag) =
      [[], "run".toList, "mnt".toList, tag] := by
    have := pathElems_single tag h1
    unfold pathElems at this ⊢
    simp [String.toList, List.splitOnP_cons, this, List.modifyHead]
  unfold Join Clean
  rw [hp]
  simp [String.toList, cleanStep, h0, h2, h3, List.intercalate]

theorem doInit_shares (k : World) (data : Str)
    (hcmd : ∀ h, k.readFile h "/proc/cmdline".toList = FileRead.ok data) :
    Succ k doInit (fun _ evs => ∃ pre blocks post,
      evs = pre ++ Event.mount (resolveRootfsTag (TrimSpace data)) "/sysroot".toList
        "virtiofs".toList MS_RDONLY [] none :: (blocks.flatten ++ post) ∧
      (∀ e ∈ pre, e.isVirtiofsMount = false) ∧ (∀ e ∈ post, e.isVirtiofsMount = false) ∧
      List.Forall₂ ShareMount (cmdlineGetMounts (TrimSpace data)) blocks) := by
  let P : Event → Prop := fun e => e.isVirtiofsMount = false
  have hlog : ∀ f a, P (Event.stdout f a) := fun _ _ => rfl
  have hstat : ∀ p r, P (Event.stat p r) := fun _ _ => rfl
  have hmk : ∀ p m r, P (Event.mkdirAll p m r) := fun _ _ _ => rfl
  have hmove : ∀ s t r, P (Event.mount s t [] MS_MOVE [] r) := fun _ _ _ => rfl
  unfold doInit
  refine succ_bind (succ_of_sat (sat_mkdirLoop k _ P hstat hmk)) (fun _ => ?_)
  refine succ_bind (succ_of_sat (sat_mountAPIsLoop k _ P hlog (fun m hm r => ?_)))
    (fun _ => ?_)
  · simp only [P, Event.isVirtiofsMount, decide_eq_false_iff_not]
    exact (apiMounts_plain m hm).1
  refine succ_bind (succ_of_sat (sat_mkdirP k _ P (hstat _) (hmk _ _))) (fun _ => ?_)
  refine succ_bind (succ_of_sat (sat_readCmdline k P data hcmd hlog (fun _ _ => rfl)))
    (fun cmdline => ?_)
  refine succ_bind (succ_of_sat (sat_doWhen k _ _ P (sat_setDebug k _ P))) (fun _ => ?_)
  refine succ_bind (succ_of_sat (sat_createStaticDevices k P hlog hstat hmk
    (fun _ _ _ _ => rfl) (fun _ _ _ => rfl))) (fun _ => ?_)
  refine succ_bind (succ_of_sat (sat_loadKernelModules k _ P hlog hstat
    (fun _ _ _ _ => rfl) (fun _ _ _ => rfl) (fun _ _ => rfl) (fun _ _ => rfl)))
    (fun _ => ?_)
  refine succ_bind (succ_mountVirtiofs k _ _ _) (fun _ => ?_)
  refine succ_bind (succ_additionalMountsLoop k _) (fun _ => ?_)
  refine succ_bind (succ_of_sat (sat_survivingMountsLoop k _ P hlog hstat hmove
    (fun _ _ _ => rfl))) (fun _ => ?_)
  refine succ_bind (succ_of_sat (sat_switchRoot k _ P hlog (fun _ _ => rfl) (fun _ _ => rfl)
    (fun _ => rfl) hmove (fun _ _ => rfl))) (fun _ => ?_)
  refine succ_bind (succ_of_sat (sat_debugln k _ _ P hlog)) (fun _ => ?_)
  refine succ_weaken (succ_of_sat (sat_execInit k _ P (fun _ _ _ _ => rfl)
    (fun _ _ => rfl))) ?_
  rintro _ e13 ⟨h13, _⟩ e12 ⟨h12, _⟩ e11 ⟨h11, _⟩ e10 ⟨h10, _⟩ e9 ⟨blocks, hb, rfl⟩ e8 rfl
    e7 ⟨h7, _⟩ e6 ⟨h6, _⟩ e5 ⟨h5, _⟩ e4 ⟨h4, rfl⟩ e3 ⟨h3, _⟩ e2 ⟨h2, _⟩ e1 ⟨h1, _⟩
  refine ⟨e1 ++ (e2 ++ (e3 ++ (e4 ++ (e5 ++ (e6 ++ e7))))), blocks,
    e10 ++ (e11 ++ (e12 ++ e13)), ?_, ?_, ?_, hb⟩
  · simp [List.append_assoc]
  · intro e he
    simp only [List.mem_append] at he
    rcases he with he | he | he | he | he | he | he
    · exact h1 e he
    · exact h2 e he
    · exact h3 e he
    · exact h4 e he
    · exact h5 e he
    · exact h6 e he
    · exact h7 e he
  · intro e he
    simp only [List.mem_append] at he
    rcases he with he | he | he | he
    · exact h10 e he
    · exact h11 e he
    · exact h12 e he
    · exact h13 e he

/-! ## Additional shares and the root transition: C6, C7 -/

/-- C6, as stated, fails: for the token `mount=..` the mountpoint `filepath.Join` computes is
`/run`, which is not `/run/mnt/..` and not a path inside `/run/mnt`. -/
theorem share_mounted_outside_run_mnt :
    (boot (quietWorld "mount=..".toList [] [])).out = Outcome.ok () ∧
    cmdlineGetMounts (TrimSpace "mount=..".toList) = [⟨"..".toList, false⟩] ∧
    (requests (boot (quietWorld "mount=..".toList [] [])).events).filter
        Event.isVirtiofsMount =
      [Event.mount "rootfs".toList "/sysroot".toList "virtiofs".toList 1 [] none,
       Event.mount "..".toList "/run".toList "virtiofs".toList 0 [] none] ∧
    "/run".toList ≠ "/run/mnt/..".toList ∧ ¬ "/run/mnt/".toList <+: "/run".toList := by
  decide!

/-- C6, amended: when no step fails, the virtiofs mount requests `doInit` issues after the
root mount are, in order, exactly one per entry of `cmdlineGetMounts(cmdline)`: the request
names the entry's tag, its mountpoint is `filepath.Join("/run/mnt", tag)`, made ready by
`mkdirP` just before the mount, and the read-only flag is set if and only if the entry is
read-only. That mountpoint is `/run/mnt/<tag>` whenever the tag is a single path element
(non-empty, without `/`, neither `.` nor `..`). -/
theorem additional_shares_mounted (k : World) (data : Str)
    (hcmd : ∀ h, k.readFile h "/proc/cmdline".toList = FileRead.ok data)
    (hok : (boot k).out = Outcome.ok ()) :
    (∃ pre blocks post,
      requests (boot k).events =
        pre ++ Event.mount (resolveRootfsTag (TrimSpace data)) "/sysroot".toList
          "virtiofs".toList MS_RDONLY [] none :: (blocks.flatten ++ post) ∧
      (∀ e ∈ pre, e.isVirtiofsMount = false) ∧ (∀ e ∈ post, e.isVirtiofsMount = false) ∧
      List.Forall₂ ShareMount (cmdlineGetMounts (TrimSpace data)) blocks) ∧
    (∀ tag : Str, tag ≠ [] → '/' ∉ tag → tag ≠ ['.'] → tag ≠ ['.', '.'] →
      Join "/run/mnt".toList tag = "/run/mnt/".toList ++ tag) :=
  ⟨doInit_shares k data hcmd [] false () hok, join_run_mnt⟩

/-- C6, amended, at the command line `mount=data mount-ro=logs`. -/
theorem additional_shares_mounted_witness :
    (∃ pre blocks post,
      requests (boot (quietWorld "mount=data mount-ro=logs".toList [] [])).events =
        pre ++ Event.mount (resolveRootfsTag (TrimSpace "mount=data mount-ro=logs".toList))
          "/sysroot".toList "virtiofs".toList MS_RDONLY [] none ::
          (blocks.flatten ++ post) ∧
      (∀ e ∈ pre, e.isVirtiofsMount = false) ∧ (∀ e ∈ post, e.isVirtiofsMount = false) ∧
      List.Forall₂ ShareMount (cmdlineGetMounts (TrimSpace "mount=data mount-ro=logs".toList))
        blocks) ∧
    (∀ tag : Str, tag ≠ [] → '/' ∉ tag → tag ≠ ['.'] → tag ≠ ['.', '.'] →
      Join "/run/mnt".toList tag = "/run/mnt/".toList ++ tag) :=
  additional_shares_mounted (quietWorld "mount=data mount-ro=logs".toList [] [])
    "mount=data mount-ro=logs".toList (fun _ => rfl) (by decide!)

theorem doInit_relocations (k : World) :
    Succ k doInit (fun _ evs => ∃ pre blocks prog envv,
      evs = pre ++ (blocks.flatten ++
        [Event.chdir "/sysroot".toList none, Event.openFile ['/'] none,
         Event.mount ['.'] ['/'] [] MS_MOVE [] none, Event.chroot ['.'] none,
         Event.chdir ['/'] none, Event.closeFile ['/'],
         Event.exec prog [Base prog] envv none]) ∧
      (∀ e ∈ pre, e.isRelocation = false) ∧
      List.Forall₂ Relocation survivingMounts blocks) := by
  let P : Event → Prop := fun e => e.isRelocation = false
  have hlog : ∀ f a, P (Event.stdout f a) := fun _ _ => rfl
  have hstat : ∀ p r, P (Event.stat p r) := fun _ _ => rfl
  have hmk : ∀ p m r, P (Event.mkdirAll p m r) := fun _ _ _ => rfl
  have hshare : ∀ s t (ro : Bool) r,
      P (Event.mount s t "virtiofs".toList (if ro then MS_RDONLY else 0) [] r) := by
    intro s t ro r
    cases ro <;> simp [P, Event.isRelocation, MS_RDONLY, MS_MOVE]
  unfold doInit
  refine succ_bind (succ_of_sat (sat_mkdirLoop k _ P hstat hmk)) (fun _ => ?_)
  refine succ_bind (succ_of_sat (sat_mountAPIsLoop k _ P hlog (fun m hm r => ?_)))
    (fun _ => ?_)
  · simp only [P, Event.isRelocation, decide_eq_false_iff_not]
    exact (apiMounts_plain m hm).2
  refine succ_bind (succ_of_sat (sat_mkdirP k _ P (hstat _) (hmk _ _))) (fun _ => ?_)
  refine succ_bind (succ_of_sat (sat_readCmdline_any k P hlog (fun _ _ => rfl)))
    (fun cmdline => ?_)
  refine succ_bind (succ_of_sat (sat_doWhen k _ _ P (sat_setDebug k _ P))) (fun _ => ?_)
  refine succ_bind (succ_of_sat (sat_createStaticDevices k P hlog hstat hmk
    (fun _ _ _ _ => rfl) (fun _ _ _ => rfl))) (fun _ => ?_)
  refine succ_bind (succ_of_sat (sat_loadKernelModules k _ P hlog hstat
    (fun _ _ _ _ => rfl) (fun _ _ _ => rfl) (fun _ _ => rfl) (fun _ _ => rfl)))
    (fun _ => ?_)
  refine succ_bind (succ_of_sat (sat_mountVirtiofs k _ _ _ P hlog (hshare _ _ true)))
    (fun _ => ?_)
  refine succ_bind (succ_of_sat (sat_additionalMountsLoop k _ P hlog hstat hmk
    (fun m _ r => hshare _ _ m.readOnly r))) (fun _ => ?_)
  refine succ_bind (succ_survivingMountsLoop k _) (fun _ => ?_)
  refine succ_bind (succ_switchRoot k _) (fun _ => ?_)
  refine succ_bind (succ_debugln k _ _) (fun _ => ?_)
  refine succ_weaken (succ_execInit k _) ?_
  rintro _ e13 ⟨envv, rfl⟩ e12 rfl e11 rfl e10 ⟨blocks, hb, rfl⟩ e9 ⟨h9, _⟩ e8 ⟨h8, _⟩
    e7 ⟨h7, _⟩ e6 ⟨h6, _⟩ e5 ⟨h5, _⟩ e4 ⟨h4, _⟩ e3 ⟨h3, _⟩ e2 ⟨h2, _⟩ e1 ⟨h1, _⟩
  refine ⟨e1 ++ (e2 ++ (e3 ++ (e4 ++ (e5 ++ (e6 ++ (e7 ++ (e8 ++ e9))))))), blocks,
    resolveInitProgram cmdline, envv, ?_, ?_, hb⟩
  · simp [List.append_assoc]
  · intro e he
    simp only [List.mem_append] at he
    rcases he with he | he | he | he | he | he | he | he | he
    · exact h1 e he
    · exact h2 e he
    · exact h3 e he
    · exact h4 e he
    · exact h5 e he
    · exact h6 e he
    · exact h7 e he
    · exact h8 e he
    · exact h9 e he

/-- C7, as stated, fails: in a world where `/sysroot/proc` is a regular file, so that no
directory with that path exists under `/sysroot`, and where no step fails, `doInit` still
requests the move-mount of `/proc` to `/sysroot/proc` and never an unmount: the code asks
only whether `os.Stat` succeeds, not what it found. -/
theorem regular_file_is_move_target :
    fileRootWorld.stat [] "/sysroot/proc".toList = Res.ok FileType.regular ∧
    (boot fileRootWorld).out = Outcome.ok () ∧
    (requests (boot fileRootWorld).events).filter
        (fun e => e.isRelocation || decide (e = Event.stat "/sysroot/proc".toList
          (Res.ok FileType.regular))) =
      [Event.mount "/run".toList "/sysroot/run".toList [] MS_MOVE [] none,
       Event.mount "/dev".toList "/sysroot/dev".toList [] MS_MOVE [] none,
       Event.stat "/sysroot/proc".toList (Res.ok FileType.regular),
       Event.mount "/proc".toList "/sysroot/proc".toList [] MS_MOVE [] none,
       Event.mount "/sys".toList "/sysroot/sys".toList [] MS_MOVE [] none,
       Event.mount "/tmp".toList "/sysroot/tmp".toList [] MS_MOVE [] none,
       Event.mount ['.'] ['/'] [] MS_MOVE [] none] := by
  decide!

/-- C7, amended: when no step fails, `doInit` issues for each of the five mountpoints `/run`,
`/dev`, `/proc`, `/sys`, `/tmp`, in this order and right before the requests of `switchRoot`,
exactly one request, chosen by the answer of `os.Stat("/sysroot<mountpoint>")` that precedes
it: a move-mount to `/sysroot<mountpoint>` when `os.Stat` succeeds, whatever type of file it
found, and an unmount of the mountpoint when `os.Stat` returns an error, whatever the error;
no other move-mount or unmount comes before. -/
theorem surviving_mounts_relocated (k : World) (hok : (boot k).out = Outcome.ok ()) :
    (∃ pre blocks prog envv,
      requests (boot k).events = pre ++ (blocks.flatten ++
        [Event.chdir "/sysroot".toList none, Event.openFile ['/'] none,
         Event.mount ['.'] ['/'] [] MS_MOVE [] none, Event.chroot ['.'] none,
         Event.chdir ['/'] none, Event.closeFile ['/'],
         Event.exec prog [Base prog] envv none]) ∧
      (∀ e ∈ pre, e.isRelocation = false) ∧
      List.Forall₂ Relocation survivingMounts blocks) ∧
    survivingMounts =
      ["/run".toList, "/dev".toList, "/proc".toList, "/sys".toList, "/tmp".toList] ∧
    (∀ mp ∈ survivingMounts, Join "/sysroot".toList mp = "/sysroot".toList ++ mp) :=
  ⟨doInit_relocations k [] false () hok, rfl, by decide⟩

/-- C7, amended, in a world whose new root has every directory but `/sysroot/proc`. -/
theorem surviving_mounts_relocated_witness :
    (∃ pre blocks prog envv,
      requests (boot sparseRootWorld).events = pre ++ (blocks.flatten ++
        [Event.chdir "/sysroot".toList none, Event.openFile ['/'] none,
         Event.mount ['.'] ['/'] [] MS_MOVE [] none, Event.chroot ['.'] none,
         Event.chdir ['/'] none, Event.closeFile ['/'],
         Event.exec prog [Base prog] envv none]) ∧
      (∀ e ∈ pre, e.isRelocation = false) ∧
      List.Forall₂ Relocation survivingMounts blocks) ∧
    survivingMounts =
      ["/run".toList, "/dev".toList, "/proc".toList, "/sys".toList, "/tmp".toList] ∧
    (∀ mp ∈ survivingMounts, Join "/sysroot".toList mp = "/sysroot".toList ++ mp) :=
  surviving_mounts_relocated sparseRootWorld (by decide!)

/-! ## The root share: C4, C5 -/

theorem join_run_mnt_ne_sysroot (tag : Str) (h0 : tag ≠ []) (h1 : '/' ∉ tag)
    (h2 : tag ≠ ['.']) (h3 : tag ≠ ['.', '.']) :
    Join "/run/mnt".toList tag ≠ "/sysroot".toList := by
  rw [join_run_mnt tag h0 h1 h2 h3]
  intro h
  simp [String.toList] at h

/-- C4, as stated, fails: with the command line `mount=../../sysroot` the mountpoint of the
additional share, `filepath.Join("/run/mnt", "../../sysroot")`, is `/sysroot` itself, so the
run issues a second virtiofs mount request targeting `/sysroot`, which names the tag
`../../sysroot`, not the resolved root tag `rootfs`, and carries no read-only flag. -/
theorem sysroot_mounted_by_share :
    Join "/run/mnt".toList "../../sysroot".toList = "/sysroot".toList ∧
    resolveRootfsTag (TrimSpace "mount=../../sysroot".toList) = "rootfs".toList ∧
    (boot (quietWorld "mount=../../sysroot".toList [] [])).events.filter
        Event.isVirtiofsMount =
      [Event.mount "rootfs".toList "/sysroot".toList "virtiofs".toList 1 [] none,
       Event.mount "../../sysroot".toList "/sysroot".toList "virtiofs".toList 0 [] none] ∧
    "../../sysroot".toList ≠ "rootfs".toList ∧ (0 : Nat) ≠ MS_RDONLY := by
  decide!

/-- C4, amended: in every run of `doInit`, the first virtiofs mount request (the one of the
root-mount step, issued as soon as the run reaches it) targets `/sysroot`, names the resolved
root tag and carries exactly the read-only flag `MS_RDONLY`, whatever `mount=` or `mount-ro=`
tokens the command line holds. Every virtiofs mount request targeting `/sysroot` is that
request or the request of an additional share whose mountpoint
`filepath.Join("/run/mnt", tag)` is `/sysroot`, made with the tag and the flag of its token.
When every additional tag is a single path element (non-empty, without `/`, neither `.` nor
`..`), every virtiofs mount request targeting `/sysroot` names the resolved root tag and is
read-only. -/
theorem root_mount_read_only (k : World) (data : Str)
    (hcmd : ∀ h, k.readFile h "/proc/cmdline".toList = FileRead.ok data) :
    (∀ pre ev post, (boot k).events = pre ++ ev :: post → ev.isVirtiofsMount = true →
      (∀ x ∈ pre, x.isVirtiofsMount = false) →
      ∃ r, ev = Event.mount (resolveRootfsTag (TrimSpace data)) "/sysroot".toList
        "virtiofs".toList MS_RDONLY [] r) ∧
    (∀ src flags dat r,
      Event.mount src "/sysroot".toList "virtiofs".toList flags dat r ∈ (boot k).events →
      (src = resolveRootfsTag (TrimSpace data) ∧ flags = MS_RDONLY) ∨
      ∃ m ∈ cmdlineGetMounts (TrimSpace data), src = m.tag ∧
        Join "/run/mnt".toList m.tag = "/sysroot".toList ∧
        flags = if m.readOnly then MS_RDONLY else 0) ∧
    ((∀ m ∈ cmdlineGetMounts (TrimSpace data),
        m.tag ≠ [] ∧ '/' ∉ m.tag ∧ m.tag ≠ ['.'] ∧ m.tag ≠ ['.', '.']) →
      ∀ src flags dat r,
        Event.mount src "/sysroot".toList "virtiofs".toList flags dat r ∈ (boot k).events →
        src = resolveRootfsTag (TrimSpace data) ∧ flags = MS_RDONLY) := by
  have horigin : ∀ src flags dat r,
      Event.mount src "/sysroot".toList "virtiofs".toList flags dat r ∈ (boot k).events →
      (src = resolveRootfsTag (TrimSpace data) ∧ flags = MS_RDONLY) ∨
      ∃ m ∈ cmdlineGetMounts (TrimSpace data), src = m.tag ∧
        Join "/run/mnt".toList m.tag = "/sysroot".toList ∧
        flags = if m.readOnly then MS_RDONLY else 0 := by
    intro src flags dat r hmem
    rcases (doInit_shareOrigin k data hcmd [] false).1 _ hmem with h | ⟨r2, h⟩ | ⟨m, hm, r2, h⟩
    · simp [Event.isVirtiofsMount] at h
    · simp only [Event.mount.injEq] at h
      exact Or.inl ⟨h.1, h.2.2.2.1⟩
    · simp only [Event.mount.injEq] at h
      exact Or.inr ⟨m, hm, h.1, h.2.1.symm, h.2.2.2.1⟩
  refine ⟨fun pre ev post hsplit hev hpre =>
    (doInit_first_virtiofs k data hcmd pre ev post hsplit hev hpre).1, horigin, ?_⟩
  intro hel src flags dat r hmem
  rcases horigin src flags dat r hmem with h | ⟨m, hm, _, hj, _⟩
  · exact h
  · obtain ⟨h0, h1, h2, h3⟩ := hel m hm
    exact absurd hj (join_run_mnt_ne_sysroot m.tag h0 h1 h2 h3)

/-- C4, amended, at the command line `mount=../../sysroot`: the first virtiofs mount request,
after 22 other events, is the read-only mount of `rootfs` at `/sysroot`, and the read-write
request at `/sysroot` is the one of the `mount=` token. -/
theorem root_mount_read_only_witness :
    (∃ r, Event.mount "rootfs".toList "/sysroot".toList "virtiofs".toList 1 [] none =
      Event.mount (resolveRootfsTag (TrimSpace "mount=../../sysroot".toList))
        "/sysroot".toList "virtiofs".toList MS_RDONLY [] r) ∧
    (("../../sysroot".toList = resolveRootfsTag (TrimSpace "mount=../../sysroot".toList) ∧
        (0 : Nat) = MS_RDONLY) ∨
      ∃ m ∈ cmdlineGetMounts (TrimSpace "mount=../../sysroot".toList),
        "../../sysroot".toList = m.tag ∧
        Join "/run/mnt".toList m.tag = "/sysroot".toList ∧
        (0 : Nat) = if m.readOnly then MS_RDONLY else 0) :=
  ⟨(root_mount_read_only (quietWorld "mount=../../sysroot".toList [] [])
      "mount=../../sysroot".toList (fun _ => rfl)).1
      ((boot (quietWorld "mount=../../sysroot".toList [] [])).events.take 22)
      (Event.mount "rootfs".toList "/sysroot".toList "virtiofs".toList 1 [] none)
      ((boot (quietWorld "mount=../../sysroot".toList [] [])).events.drop 23)
      (by decide!) (by decide!) (by decide!),
   (root_mount_read_only (quietWorld "mount=../../sysroot".toList [] [])
      "mount=../../sysroot".toList (fun _ => rfl)).2.1
      "../../sysroot".toList 0 [] none (by decide!)⟩

/-- C5, as stated, fails: with the command line `mount=rootfs` the root share tag `rootfs` is
mounted a second time, at `/run/mnt/rootfs`, without the read-only flag; and with
`rootfs=../../sysroot mount=../../sysroot` the root share tag is mounted without the flag
at `/sysroot` itself. -/
theorem root_tag_mounted_read_write :
    (resolveRootfsTag (TrimSpace "mount=rootfs".toList) = "rootfs".toList ∧
      Event.mount "rootfs".toList "/run/mnt/rootfs".toList "virtiofs".toList 0 [] none ∈
        (boot (quietWorld "mount=rootfs".toList [] [])).events) ∧
    (resolveRootfsTag (TrimSpace "rootfs=../../sysroot mount=../../sysroot".toList) =
        "../../sysroot".toList ∧
      Event.mount "../../sysroot".toList "/sysroot".toList "virtiofs".toList 0 [] none ∈
        (boot (quietWorld "rootfs=../../sysroot mount=../../sysroot".toList [] [])).events) := by
  decide!

/-- C5, amended: every virtiofs mount request `doInit` issues for the resolved root share tag
carries the read-only flag, except a request made for a `mount=` token that names that tag,
which is issued at `filepath.Join("/run/mnt", tag)` without the flag. The request of the
root-mount step itself, the first virtiofs request of the run, is at `/sysroot` and always
read-only. When no `mount=` token names the root tag, no request for it lacks the flag; and
unless `filepath.Join("/run/mnt", tag)` is `/sysroot` itself, no request for the root tag at
`/sysroot` lacks the flag. -/
theorem root_tag_mounts_read_only (k : World) (data : Str)
    (hcmd : ∀ h, k.readFile h "/proc/cmdline".toList = FileRead.ok data) :
    (∀ src tgt flags dat r,
      Event.mount src tgt "virtiofs".toList flags dat r ∈ (boot k).events →
      src = resolveRootfsTag (TrimSpace data) →
        flags = MS_RDONLY ∨
        ((⟨src, false⟩ : MountEntry) ∈ cmdlineGetMounts (TrimSpace data) ∧
          tgt = Join "/run/mnt".toList src ∧ flags = 0)) ∧
    (∀ pre ev post, (boot k).events = pre ++ ev :: post → ev.isVirtiofsMount = true →
      (∀ x ∈ pre, x.isVirtiofsMount = false) →
      ∃ r, ev = Event.mount (resolveRootfsTag (TrimSpace data)) "/sysroot".toList
        "virtiofs".toList MS_RDONLY [] r) ∧
    ((⟨resolveRootfsTag (TrimSpace data), false⟩ : MountEntry) ∉
        cmdlineGetMounts (TrimSpace data) →
      ∀ tgt flags dat r,
        Event.mount (resolveRootfsTag (TrimSpace data)) tgt "virtiofs".toList flags dat r ∈
          (boot k).events → flags = MS_RDONLY) ∧
    (Join "/run/mnt".toList (resolveRootfsTag (TrimSpace data)) ≠ "/sysroot".toList →
      ∀ flags dat r,
        Event.mount (resolveRootfsTag (TrimSpace data)) "/sysroot".toList "virtiofs".toList
          flags dat r ∈ (boot k).events → flags = MS_RDONLY) := by
  have hall : ∀ src tgt flags dat r,
      Event.mount src tgt "virtiofs".toList flags dat r ∈ (boot k).events →
      src = resolveRootfsTag (TrimSpace data) →
        flags = MS_RDONLY ∨
        ((⟨src, false⟩ : MountEntry) ∈ cmdlineGetMounts (TrimSpace data) ∧
          tgt = Join "/run/mnt".toList src ∧ flags = 0) := by
    intro src tgt flags dat r hmem hsrc
    rcases (doInit_shareOrigin k data hcmd [] false).1 _ hmem with h | ⟨r2, h⟩ | ⟨m, hm, r2, h⟩
    · simp [Event.isVirtiofsMount] at h
    · simp only [Event.mount.injEq] at h
      exact Or.inl h.2.2.2.1
    · simp only [Event.mount.injEq] at h
      obtain ⟨h1, h2, _, h4, _, _⟩ := h
      rcases m with ⟨tag, ro⟩
      cases ro with
      | true => exact Or.inl (by simpa using h4)
      | false =>
        refine Or.inr ⟨?_, ?_, by simpa using h4⟩
        · simp only at h1
          rw [h1]
          exact hm
        · simp only at h1 h2
          rw [h2, h1]
  refine ⟨hall, fun pre ev post hsplit hev hpre =>
    (doInit_first_virtiofs k data hcmd pre ev post hsplit hev hpre).1, ?_, ?_⟩
  · intro hno tgt flags dat r hmem
    rcases hall _ tgt flags dat r hmem rfl with h | ⟨h, _, _⟩
    · exact h
    · exact absurd h hno
  · intro hj flags dat r hmem
    rcases hall _ _ flags dat r hmem rfl with h | ⟨_, h, _⟩
    · exact h
    · exact absurd h.symm hj

/-- C5, amended, at the command line `mount=rootfs mount-ro=rootfs`: the read-write request
for the tag `rootfs` is the one of the `mount=` token. -/
theorem root_tag_mounts_read_only_witness :
    (0 : Nat) = MS_RDONLY ∨
      ((⟨"rootfs".toList, false⟩ : MountEntry) ∈
          cmdlineGetMounts (TrimSpace "mount=rootfs mount-ro=rootfs".toList) ∧
        "/run/mnt/rootfs".toList = Join "/run/mnt".toList "rootfs".toList ∧ (0 : Nat) = 0) :=
  (root_tag_mounts_read_only (quietWorld "mount=rootfs mount-ro=rootfs".toList [] [])
    "mount=rootfs mount-ro=rootfs".toList (fun _ => rfl)).1
    "rootfs".toList "/run/mnt/rootfs".toList 0 [] none (by decide!) (by decide!)

/-! ## Module paths end in `.ko` -/

theorem pathElems_append_last (xs ys : Str) (hy : '/' ∉ ys) :
    ∃ init l, pathElems (xs ++ ys) = init ++ [l ++ ys] := by
  induction xs with
  | nil => exact ⟨[], [], by simpa using pathElems_single ys hy⟩
  | cons c xs ih =>
    obtain ⟨init, l, h⟩ := ih
    unfold pathElems at h ⊢
    rw [List.cons_append, List.splitOnP_cons, h]
    by_cases hc : (c == '/') = true
    · exact ⟨[] :: init, l, by simp [hc]⟩
    · cases init with
      | nil => exact ⟨[], c :: l, by simp [hc, List.modifyHead]⟩
      | cons i is => exact ⟨(c :: i) :: is, l, by simp [hc, List.modifyHead]⟩

theorem intercalate_append_last (sep : Str) (xs : List Str) (t : Str) :
    t <:+ List.intercalate sep (xs ++ [t]) := by
  induction xs with
  | nil => simp [List.intercalate]
  | cons x xs ih =>
    cases hx : xs ++ [t] with
    | nil => simp at hx
    | cons y ys =>
      rw [hx] at ih
      simp only [List.cons_append, hx, List.intercalate, List.intersperse, List.flatten_cons]
      simp only [List.intercalate] at ih
      exact (ih.trans (List.suffix_append _ _)).trans (List.suffix_append _ _)

theorem clean_ko_suffix (path : Str) (hs : ".ko".toList <:+ path) :
    ".ko".toList <:+ Clean path := by
  obtain ⟨x, rfl⟩ := hs
  obtain ⟨init, l, hp⟩ := pathElems_append_last x ".ko".toList (by decide)
  have hne : x ++ ".ko".toList ≠ [] := by simp [String.toList]
  have ht1 : l ++ ".ko".toList ≠ [] := by simp [String.toList]
  have ht2 : l ++ ".ko".toList ≠ ['.'] := by
    intro h
    have := congrArg List.length h
    simp [String.toList] at this
  have ht3 : l ++ ".ko".toList ≠ ['.', '.'] := by
    intro h
    have := congrArg List.length h
    simp [String.toList] at this
  have hstep : ∀ rooted st, cleanStep rooted st (l ++ ".ko".toList) =
      (l ++ ".ko".toList) :: st := by
    intro rooted st
    simp only [cleanStep, ht1, ht2, ht3, or_self, if_false]
  have hbody : ∀ rooted, ".ko".toList <:+ List.intercalate ['/']
      ((pathElems (x ++ ".ko".toList)).foldl (cleanStep rooted) []).reverse := by
    intro rooted
    rw [hp, List.foldl_append, List.foldl_cons, List.foldl_nil, hstep, List.reverse_cons]
    exact (List.suffix_append l ".ko".toList).trans (intercalate_append_last _ _ _)
  unfold Clean
  simp only [hne, if_false]
  split
  · exact (hbody _).trans (List.suffix_cons _ _)
  · split
    · rename_i hb
      have := hbody ((x ++ ".ko".toList).head? == some '/')
      rw [hb] at this
      simp [String.toList] at this
    · exact hbody _

theorem join_ko_suffix (dir name : Str) (hd : dir ≠ [])
    (hs : HasSuffix name ".ko".toList = true) : ".ko".toList <:+ Join dir name := by
  unfold HasSuffix at hs
  rw [List.isSuffixOf_iff_suffix] at hs
  unfold Join
  simp only [ne_eq, hd, not_false_eq_true, if_true]
  apply clean_ko_suffix
  exact hs.trans ((List.suffix_cons _ _).trans (List.suffix_append _ _))

theorem moduleCandidates_ko (dir : Str) (hd : dir ≠ []) (entries : List DirEntry) :
    ∀ p ∈ moduleCandidates dir entries, ".ko".toList <:+ p := by
  intro p hp
  simp only [moduleCandidates, List.mem_map, List.mem_filter, Bool.and_eq_true] at hp
  obtain ⟨e, ⟨_, _, hs⟩, rfl⟩ := hp
  exact join_ko_suffix dir e.name hd hs

theorem moduleCandidates_not_cmdline (dir : Str) (hd : dir ≠ []) (entries : List DirEntry) :
    ∀ p ∈ moduleCandidates dir entries, p ≠ "/proc/cmdline".toList := by
  intro p hp h
  have := moduleCandidates_ko dir hd entries p hp
  rw [h] at this
  exact absurd this (by decide)

/-! ## Fail-fast -/

theorem failFast_of_sat {α : Type} (A : Event → List Event → Prop) (k : World) (m : Init α)
    (Q : α → Prop) (hm : Sat k m (fun e => e.fatal = none) Q) : FailFast A k m := by
  intro h d pre ev post e hev hf
  have hn : ev.fatal = none := (hm h d).1 ev (by rw [hev]; simp)
  rw [hf] at hn
  exact absurd hn (by simp)

theorem failFast_mono {α : Type} {A B : Event → List Event → Prop} {k : World} {m : Init α}
    (hab : ∀ x p, A x p → B x p) (hm : FailFast A k m) : FailFast B k m :=
  fun h d pre ev post e hev hf => ⟨(hm h d pre ev post e hev hf).1,
    hab _ _ (hm h d pre ev post e hev hf).2⟩

theorem failFast_bind {α β : Type} {A : Event → List Event → Prop} {k : World} {m : Init α}
    {f : α → Init β} (hm : FailFast A k m) (hf : ∀ a, FailFast A k (f a)) :
    FailFast A k (m >>= f) := by
  intro h d pre ev post e hev hfat
  rw [run_bind] at hev ⊢
  cases ho : (m k h d).out with
  | ok a =>
    simp only [ho] at hev ⊢
    rcases List.append_eq_append_iff.1 hev with ⟨a2, h1, h2⟩ | ⟨c2, h1, h2⟩
    · exact hf a _ _ a2 ev post e h2 hfat
    · cases c2 with
      | nil =>
        simp only [List.nil_append] at h2
        exact hf a _ _ [] ev post e h2.symm hfat
      | cons x xs =>
        simp only [List.cons_append, List.cons.injEq] at h2
        have := (hm h d pre ev xs e (by rw [h1, h2.1]) hfat).1
        rw [ho] at this
        exact absurd this (by simp)
  | error e0 =>
    simp only [ho] at hev ⊢
    have := hm h d pre ev post e hev hfat
    rw [ho] at this
    simp only [Outcome.error.injEq] at this ⊢
    exact this
  | panic msg =>
    simp only [ho] at hev ⊢
    have := hm h d pre ev post e hev hfat
    rw [ho] at this
    exact absurd this.1 (by simp)
  | hang =>
    simp only [ho] at hev ⊢
    have := hm h d pre ev post e hev hfat
    rw [ho] at this
    exact absurd this.1 (by simp)

theorem failFast_call {ρ β : Type} (A : Event → List Event → Prop) (k : World)
    (reply : World → List Event → ρ) (ev : ρ → Event) (hA : ∀ r, A (ev r) [])
    (g : ρ → Init β) (hg : ∀ r, FailFast A k (g r))
    (hstop : ∀ r e, (ev r).fatal = some e →
      ∀ h d, (g r k h d).out = Outcome.error e ∧ (g r k h d).events = []) :
    FailFast A k (call reply ev >>= g) := by
  intro h d pre x post e hev hfat
  rw [run_bind] at hev ⊢
  simp only [run_call] at hev ⊢
  cases pre with
  | nil =>
    simp only [List.nil_append, List.singleton_append, List.cons.injEq] at hev
    rw [← hev.1] at hfat
    have hs := hstop _ e hfat (h ++ [ev (reply k h)]) d
    refine ⟨hs.1, ?_⟩
    rw [← hev.2, hs.2, ← hev.1]
    exact hA _
  | cons y ys =>
    simp only [List.cons_append, List.singleton_append, List.cons.injEq] at hev
    exact hg _ _ _ ys x post e hev.2 hfat

theorem failFast_deferred_emit {α : Type} (k : World) (ev : Event) (body : Init α)
    (Q : Event → Prop) (hev : ev.fatal = none)
    (hb : FailFast (fun x p => p = [] ∧ Q x) k body) :
    FailFast (fun x p => p = [ev] ∧ Q x) k (deferred (emit ev) body) := by
  intro h d pre x post e hsplit hfat
  rw [run_deferred] at hsplit ⊢
  by_cases hh : (body k h d).out.isHang = true
  · simp only [hh, if_true] at hsplit
    have := (hb h d pre x post e hsplit hfat).1
    rw [this] at hh
    exact absurd hh (by simp [Outcome.isHang])
  simp only [hh, if_false, run_emit] at hsplit ⊢
  rcases List.append_eq_append_iff.1 hsplit with ⟨a2, h1, h2⟩ | ⟨c2, h1, h2⟩
  · cases a2 with
    | nil =>
      simp only [List.nil_append, List.cons.injEq] at h2
      rw [← h2.1, hev] at hfat
      exact absurd hfat (by simp)
    | cons y ys =>
      simp only [List.cons_append, List.cons.injEq] at h2
      exact absurd h2.2 (by simp)
  · cases c2 with
    | nil =>
      simp only [List.nil_append, List.cons.injEq] at h2
      rw [h2.1, hev] at hfat
      exact absurd hfat (by simp)
    | cons y ys =>
      simp only [List.cons_append, List.cons.injEq] at h2
      have := hb h d pre x ys e (by rw [h1, h2.1]) hfat
      refine ⟨this.1, ?_, this.2.2⟩
      rw [h2.2, this.2.1]
      rfl

theorem failFast_check (A : Event → List Event → Prop) (k : World) (err : Option Errno) :
    FailFast A k (check err) :=
  failFast_of_sat A k _ _ (sat_check k err _)

theorem failFast_pure {α : Type} (A : Event → List Event → Prop) (k : World) (a : α) :
    FailFast A k (pure a : Init α) :=
  failFast_of_sat A k _ (fun _ => True) (sat_pure k a _ _ trivial)

theorem failFast_debugln (A : Event → List Event → Prop) (k : World) (format : Str)
    (args : List Arg) : FailFast A k (debugln format args) :=
  failFast_of_sat A k _ _ (sat_debugln k format args _ (fun _ _ => rfl))

/-- A call whose failure is returned at once: `if err := call(); err != nil { return err }`
followed by `g`. -/
theorem failFast_call_check {β : Type} (A : Event → List Event → Prop) (k : World)
    (reply : World → List Event → Option Errno) (ev : Option Errno → Event)
    (hA : ∀ r, A (ev r) []) (g : Init β)
    (hfat : ∀ r e, (ev r).fatal = some e → r = some e) (hg : FailFast A k g) :
    FailFast A k (call reply ev >>= fun r => check r >>= fun _ => g) := by
  refine failFast_call A k reply ev hA _ (fun r => failFast_bind (failFast_check A k r)
    (fun _ => hg)) ?_
  intro r e hf h d
  rw [hfat r e hf, run_bind]
  simp

theorem failFast_call_check_last (A : Event → List Event → Prop) (hA : ∀ x, A x []) (k : World)
    (reply : World → List Event → Option Errno) (ev : Option Errno → Event)
    (hfat : ∀ r e, (ev r).fatal = some e → r = some e) :
    FailFast A k (call reply ev >>= fun r => check r) := by
  refine failFast_call A k reply ev (fun _ => hA _) _ (fun r => failFast_check A k r) ?_
  intro r e hf h d
  rw [hfat r e hf]
  simp

theorem fatal_some_iff (ev : Option Errno → Event)
    (h : ∀ r, (ev r).fatal = r) (r : Option Errno) (e : Errno)
    (hf : (ev r).fatal = some e) : r = some e := by
  rw [h] at hf
  exact hf

theorem fatal_mount (s t f : Str) (fl : Nat) (dt : Str) (r : Option Errno) :
    (Event.mount s t f fl dt r).fatal = r := by
  cases r <;> rfl

theorem fatal_mkdirAll (p : Str) (m : Nat) (r : Option Errno) :
    (Event.mkdirAll p m r).fatal = r := by
  cases r <;> rfl

theorem fatal_unmount (t : Str) (f : Nat) (r : Option Errno) :
    (Event.unmount t f r).fatal = r := by
  cases r <;> rfl

theorem fatal_chdir (p : Str) (r : Option Errno) : (Event.chdir p r).fatal = r := by
  cases r <;> rfl

theorem fatal_openFile (p : Str) (r : Option Errno) : (Event.openFile p r).fatal = r := by
  cases r <;> rfl

theorem fatal_chroot (p : Str) (r : Option Errno) : (Event.chroot p r).fatal = r := by
  cases r <;> rfl

theorem failFast_mkdirP (A : Event → List Event → Prop) (hA : ∀ x, A x []) (k : World) (path : Str) :
    FailFast A k (mkdirP path) := by
  unfold mkdirP
  refine failFast_call A k _ _ (fun _ => hA _) _ (fun info => ?_) (fun r e hf => ?_)
  · cases IsNotExist info.toErr
    · exact failFast_pure A k ()
    · exact failFast_call_check_last A hA k _ _
        (fatal_some_iff _ (fatal_mkdirAll _ _))
  · simp [Event.fatal] at hf

theorem failFast_doWhen (A : Event → List Event → Prop) (k : World) (c : Bool) (m : Init Unit)
    (hm : FailFast A k m) : FailFast A k (doWhen c m) := by
  cases c
  · exact failFast_pure A k ()
  · exact hm

theorem failFast_mkdirLoop (A : Event → List Event → Prop) (hA : ∀ x, A x []) (k : World) (ds : List Str) :
    FailFast A k (mkdirLoop ds) := by
  induction ds with
  | nil => exact failFast_pure A k ()
  | cons p rest ih =>
    unfold mkdirLoop
    exact failFast_bind (failFast_mkdirP A hA k p) (fun _ => ih)

theorem failFast_mountAPIsLoop (A : Event → List Event → Prop) (hA : ∀ x, A x []) (k : World)
    (ms : List APIMount) : FailFast A k (mountAPIsLoop ms) := by
  induction ms with
  | nil => exact failFast_pure A k ()
  | cons m rest ih =>
    unfold mountAPIsLoop
    refine failFast_bind (failFast_debugln A k _ _) (fun _ => ?_)
    exact failFast_call_check A k _ _ (fun _ => hA _) _ (fatal_some_iff _ (fatal_mount _ _ _ _ _)) ih

theorem failFast_readCmdline (A : Event → List Event → Prop) (hA : ∀ x, A x []) (k : World) :
    FailFast A k readCmdline := by
  unfold readCmdline
  refine failFast_bind (failFast_debugln A k _ _) (fun _ => ?_)
  refine failFast_call A k _ _ (fun _ => hA _) _ (fun r => ?_) (fun r e hf => ?_)
  · cases r with
    | err e => exact failFast_of_sat A k _ (fun _ => True) (sat_fail k e _ _)
    | blocks => exact failFast_of_sat A k _ (fun _ => True) (sat_goHang k _ _)
    | ok data => exact failFast_pure A k _
  · cases r with
    | err e2 =>
      simp only [Event.fatal, if_true, Option.some.injEq] at hf
      subst hf
      intro h d
      simp
    | blocks => simp [Event.fatal] at hf
    | ok data => simp [Event.fatal] at hf

theorem failFast_createDevicesLoop (A : Event → List Event → Prop) (hA : ∀ x, A x []) (k : World)
    (ds : List Device) : FailFast A k (createDevicesLoop ds) := by
  induction ds with
  | nil => exact failFast_pure A k ()
  | cons dev rest ih =>
    unfold createDevicesLoop
    refine failFast_bind (failFast_debugln A k _ _) (fun _ => ?_)
    refine failFast_bind (failFast_doWhen A k _ _ (failFast_mkdirP A hA k _)) (fun _ => ?_)
    refine failFast_call A k _ _ (fun _ => hA _) _ (fun err => ?_) (fun r e hf => ?_)
    · exact failFast_bind (failFast_doWhen A k _ _ (failFast_check A k err)) (fun _ => ih)
    · cases r with
      | none => simp [Event.fatal] at hf
      | some e2 =>
        simp only [Event.fatal] at hf
        split at hf
        · exact absurd hf (by simp)
        · rename_i hx
          simp only [Option.some.injEq] at hf
          subst hf
          intro h d
          rw [run_bind]
          simp [doWhen, hx]

theorem failFast_createSymlinksLoop (A : Event → List Event → Prop) (hA : ∀ x, A x []) (k : World)
    (ls : List (Str × Str)) : FailFast A k (createSymlinksLoop ls) := by
  induction ls with
  | nil => exact failFast_pure A k ()
  | cons link rest ih =>
    unfold createSymlinksLoop
    refine failFast_bind (failFast_debugln A k _ _) (fun _ => ?_)
    refine failFast_call A k _ _ (fun _ => hA _) _ (fun err => ?_) (fun r e hf => ?_)
    · exact failFast_bind (failFast_doWhen A k _ _ (failFast_check A k err)) (fun _ => ih)
    · cases r with
      | none => simp [Event.fatal] at hf
      | some e2 =>
        simp only [Event.fatal] at hf
        split at hf
        · exact absurd hf (by simp)
        · rename_i hx
          simp only [Option.some.injEq] at hf
          subst hf
          intro h d
          rw [run_bind]
          simp [doWhen, hx]

theorem failFast_createStaticDevices (A : Event → List Event → Prop) (hA : ∀ x, A x []) (k : World) :
    FailFast A k createStaticDevices := by
  unfold createStaticDevices
  refine failFast_bind (failFast_debugln A k _ _) (fun _ => ?_)
  exact failFast_bind (failFast_createDevicesLoop A hA k _)
    (fun _ => failFast_createSymlinksLoop A hA k _)

theorem failFast_loadKernelModules (A : Event → List Event → Prop) (hA : ∀ x, A x []) (k : World)
    (modulesDir : Str) (hd : modulesDir ≠ []) :
    FailFast A k (loadKernelModules modulesDir) := by
  unfold loadKernelModules
  refine failFast_call A k _ _ (fun _ => hA _) _ (fun info => ?_) (fun r e hf => ?_)
  · cases IsNotExist info.toErr
    · simp only [Bool.false_eq_true, if_false]
      refine failFast_call A k _ _ (fun _ => hA _) _ (fun r => ?_) (fun r e hf => ?_)
      · cases r with
        | err e => exact failFast_of_sat A k _ (fun _ => True) (sat_fail k e _ _)
        | ok entries =>
          refine failFast_of_sat A k _ _ (sat_loadModulesLoop k _ _ (fun _ _ => rfl) ?_
            (fun _ _ _ => rfl) (fun _ _ => rfl))
          intro p hp r
          rw [collectModulePaths_eq, List.nil_append] at hp
          have hne := moduleCandidates_not_cmdline modulesDir hd entries p
            ((sortStrings_perm _).mem_iff.1 hp)
          cases r with
          | ok data => rfl
          | blocks => rfl
          | err e => simp only [Event.fatal, hne, if_false]
      · cases r with
        | err e2 =>
          simp only [Event.fatal, Option.some.injEq] at hf
          subst hf
          intro h d
          simp
        | ok entries => simp [Event.fatal] at hf
    · exact failFast_pure A k ()
  · simp [Event.fatal] at hf

theorem failFast_call_check_end (A : Event → List Event → Prop) (k : World)
    (reply : World → List Event → Option Errno) (ev : Option Errno → Event)
    (hA : ∀ r, A (ev r) []) (hfat : ∀ r e, (ev r).fatal = some e → r = some e) :
    FailFast A k (call reply ev >>= fun r => check r) := by
  refine failFast_call A k reply ev hA _ (fun r => failFast_check A k r) ?_
  intro r e hf h d
  rw [hfat r e hf]
  simp

theorem failFast_mountVirtiofs (A : Event → List Event → Prop) (hA : ∀ x, A x [])
    (k : World) (tag mountpoint : Str) (readOnly : Bool) :
    FailFast A k (mountVirtiofs tag mountpoint readOnly) := by
  unfold mountVirtiofs
  refine failFast_bind (failFast_debugln A k _ _) (fun _ => ?_)
  exact failFast_call_check_end A k _ _ (fun _ => hA _)
    (fatal_some_iff _ (fatal_mount _ _ _ _ _))

theorem failFast_moveMount (A : Event → List Event → Prop) (k : World) (src dest : Str)
    (hA : ∀ r, A (Event.mount src dest [] MS_MOVE [] r) []) :
    FailFast A k (moveMount src dest) := by
  unfold moveMount
  refine failFast_bind (failFast_debugln A k _ _) (fun _ => ?_)
  exact failFast_call_check_end A k _ _ hA (fatal_some_iff _ (fatal_mount _ _ _ _ _))

theorem failFast_additionalMountsLoop (A : Event → List Event → Prop) (hA : ∀ x, A x [])
    (k : World) (ms : List MountEntry) : FailFast A k (additionalMountsLoop ms) := by
  induction ms with
  | nil => exact failFast_pure A k ()
  | cons m rest ih =>
    unfold additionalMountsLoop
    refine failFast_bind (failFast_mkdirP A hA k _) (fun _ => ?_)
    exact failFast_bind (failFast_mountVirtiofs A hA k _ _ _) (fun _ => ih)

theorem failFast_relocateOrUnmount (A : Event → List Event → Prop) (hA : ∀ x, A x [])
    (k : World) (mountPoint dest : Str) :
    FailFast A k (relocateOrUnmount mountPoint dest) := by
  unfold relocateOrUnmount
  refine failFast_call A k _ _ (fun _ => hA _) _ (fun info => ?_) (fun r e hf => ?_)
  · by_cases he : info.toErr = none
    · simp only [he, if_true]
      exact failFast_moveMount A k _ _ (fun _ => hA _)
    · simp only [he, if_false]
      exact failFast_call_check_end A k _ _ (fun _ => hA _)
        (fatal_some_iff _ (fatal_unmount _ _))
  · simp [Event.fatal] at hf

theorem failFast_survivingMountsLoop (A : Event → List Event → Prop) (hA : ∀ x, A x [])
    (k : World) (mps : List Str) : FailFast A k (survivingMountsLoop mps) := by
  induction mps with
  | nil => exact failFast_pure A k ()
  | cons mp rest ih =>
    unfold survivingMountsLoop
    exact failFast_bind (failFast_relocateOrUnmount A hA k _ _) (fun _ => ih)

theorem failFast_switchRoot (k : World) (newroot : Str) :
    FailFast AfterFailure k (switchRoot newroot) := by
  have hA : ∀ x, AfterFailure x [] := fun _ => Or.inl rfl
  unfold switchRoot
  refine failFast_bind (failFast_debugln _ k _ _) (fun _ => ?_)
  refine failFast_call_check _ k _ _ (fun _ => hA _) _
    (fatal_some_iff _ (fatal_chdir _)) ?_
  refine failFast_call_check _ k _ _ (fun _ => hA _) _
    (fatal_some_iff _ (fatal_openFile _)) ?_
  refine failFast_mono (A := fun x p => p = [Event.closeFile ['/']] ∧ x.afterOpen = true)
    (fun x p hp => Or.inr hp) ?_
  refine failFast_deferred_emit k _ _ (fun x => x.afterOpen = true) rfl ?_
  refine failFast_bind (failFast_moveMount _ k _ _ (fun _ => ⟨rfl, rfl⟩)) (fun _ => ?_)
  refine failFast_call_check _ k _ _ (fun _ => ⟨rfl, rfl⟩) _
    (fatal_some_iff _ (fatal_chroot _)) ?_
  exact failFast_call_check_end _ k _ _ (fun _ => ⟨rfl, rfl⟩)
    (fatal_some_iff _ (fatal_chdir _))

theorem failFast_execInit (A : Event → List Event → Prop) (k : World) (initProgram : Str) :
    FailFast A k (execInit initProgram) :=
  failFast_of_sat A k _ _ (sat_execInit k initProgram _ (fun _ _ _ _ => rfl)
    (fun _ _ => rfl))

theorem failFast_doInit (k : World) : FailFast AfterFailure k doInit := by
  have hA : ∀ x, AfterFailure x [] := fun _ => Or.inl rfl
  unfold doInit
  refine failFast_bind (failFast_mkdirLoop _ hA k _) (fun _ => ?_)
  refine failFast_bind (failFast_mountAPIsLoop _ hA k _) (fun _ => ?_)
  refine failFast_bind (failFast_mkdirP _ hA k _) (fun _ => ?_)
  refine failFast_bind (failFast_readCmdline _ hA k) (fun cmdline => ?_)
  refine failFast_bind (failFast_doWhen _ k _ _
    (failFast_of_sat _ k _ _ (sat_setDebug k true _))) (fun _ => ?_)
  refine failFast_bind (failFast_createStaticDevices _ hA k) (fun _ => ?_)
  refine failFast_bind (failFast_loadKernelModules _ hA k _ (by decide)) (fun _ => ?_)
  refine failFast_bind (failFast_mountVirtiofs _ hA k _ _ _) (fun _ => ?_)
  refine failFast_bind (failFast_additionalMountsLoop _ hA k _) (fun _ => ?_)
  refine failFast_bind (failFast_survivingMountsLoop _ hA k _) (fun _ => ?_)
  refine failFast_bind (failFast_switchRoot k _) (fun _ => ?_)
  refine failFast_bind (failFast_debugln _ k _ _) (fun _ => ?_)
  exact failFast_execInit _ k _

theorem doInit_first_mount (k : World) :
    FirstIs Event.isMount (fun x => x.isDirPrep = true)
      (fun ev => ∃ r, ev = Event.mount "sysfs".toList "/sys".toList "sysfs".toList
        (MS_NOSUID ||| MS_NOEXEC ||| MS_NODEV) [] r) (doInit k [] false).events := by
  unfold doInit
  refine firstIs_bind _ _ _ k _ _ _
    (sat_mkdirLoop k _ (fun e => e.isMount = false ∧ e.isDirPrep = true)
      (fun _ _ => ⟨rfl, rfl⟩) (fun _ _ _ => ⟨rfl, rfl⟩)) (fun _ _ => ?_) [] false
  refine firstIs_bind_hit _ _ _ k _ _ (fun h d => ?_)
  obtain ⟨dbg, r, rest, hev, hdbg⟩ := mountAPIsLoop_first k
    ⟨"sysfs".toList, "/sys".toList, "sysfs".toList, MS_NOSUID ||| MS_NOEXEC ||| MS_NODEV, []⟩
    (apiMounts.tail) h d
  refine ⟨dbg, _, rest, hev, ?_, rfl, r, rfl⟩
  intro x hx
  obtain ⟨f, a, rfl⟩ := hdbg x hx
  exact ⟨rfl, rfl⟩

/-! ## Fatal failures: C8 -/

/-- C8, as stated, fails: when `chroot` fails in `switchRoot`, `doInit` returns that error
but one more effect follows the failure, the deferred close of the handle on the old
root. -/
theorem close_follows_failed_chroot :
    (boot noChrootWorld).out = Outcome.error 1 ∧
    (boot noChrootWorld).events.reverse.take 2 =
      [Event.closeFile ['/'], Event.chroot ['.'] (some 1)] ∧
    (Event.chroot ['.'] (some 1)).fatal = some 1 := by
  decide!

/-- C8, amended: if a fatal-class step fails (a mount of any kind, an unmount, the read of
`/proc/cmdline`, a device or symlink creation other than already-exists, `chdir`, `open`,
`chroot`, and also `MkdirAll` or `ReadDir`), `doInit` returns that error, and nothing follows
the failure except, for a step of `switchRoot` made while the old root is open, the deferred
close of that handle. In particular the first mount of a run is the mount of `/sys`, only
`stat`, `MkdirAll` and `debugln` come before it, and nothing at all follows when it fails. -/
theorem doInit_fail_fast (k : World) (pre : List Event) (ev : Event) (post : List Event)
    (e : Errno) (hsplit : (boot k).events = pre ++ ev :: post) (hfat : ev.fatal = some e) :
    (boot k).out = Outcome.error e ∧
    (post = [] ∨ (post = [Event.closeFile ['/']] ∧ ev.afterOpen = true)) ∧
    (ev.isMount = true → (∀ x ∈ pre, x.isMount = false) →
      post = [] ∧
      (∃ r, ev = Event.mount "sysfs".toList "/sys".toList "sysfs".toList
        (MS_NOSUID ||| MS_NOEXEC ||| MS_NODEV) [] r) ∧
      ∀ x ∈ pre, x.isDirPrep = true) := by
  have h1 := failFast_doInit k [] false pre ev post e hsplit hfat
  refine ⟨h1.1, h1.2, ?_⟩
  intro hm hpre
  obtain ⟨⟨r, hr⟩, hdir⟩ := doInit_first_mount k pre ev post hsplit hm hpre
  refine ⟨?_, ⟨r, hr⟩, hdir⟩
  rcases h1.2 with h2 | ⟨_, h2⟩
  · exact h2
  · rw [hr] at h2
    simp [Event.afterOpen, String.toList] at h2

/-- C8, amended, in a world where the mount of `/sys` fails: the run is the six `stat`
calls of the directory loop and the failed mount. -/
theorem doInit_fail_fast_witness :
    (boot noSysfsWorld).out = Outcome.error 1 ∧
    (([] : List Event) = [] ∨ (([] : List Event) = [Event.closeFile ['/']] ∧
      (Event.mount "sysfs".toList "/sys".toList "sysfs".toList 14 [] (some 1)).afterOpen =
        true)) ∧
    ((Event.mount "sysfs".toList "/sys".toList "sysfs".toList 14 [] (some 1)).isMount = true →
      (∀ x ∈ [Event.stat "/sysroot".toList (Res.ok FileType.dir), Event.stat "/sys".toList (Res.ok FileType.dir),
          Event.stat "/dev".toList (Res.ok FileType.dir), Event.stat "/proc".toList (Res.ok FileType.dir),
          Event.stat "/run".toList (Res.ok FileType.dir), Event.stat "/tmp".toList (Res.ok FileType.dir)],
        x.isMount = false) →
      ([] : List Event) = [] ∧
      (∃ r, Event.mount "sysfs".toList "/sys".toList "sysfs".toList 14 [] (some 1) =
        Event.mount "sysfs".toList "/sys".toList "sysfs".toList
          (MS_NOSUID ||| MS_NOEXEC ||| MS_NODEV) [] r) ∧
      ∀ x ∈ [Event.stat "/sysroot".toList (Res.ok FileType.dir), Event.stat "/sys".toList (Res.ok FileType.dir),
          Event.stat "/dev".toList (Res.ok FileType.dir), Event.stat "/proc".toList (Res.ok FileType.dir),
          Event.stat "/run".toList (Res.ok FileType.dir), Event.stat "/tmp".toList (Res.ok FileType.dir)],
        x.isDirPrep = true) :=
  doInit_fail_fast noSysfsWorld
    [Event.stat "/sysroot".toList (Res.ok FileType.dir), Event.stat "/sys".toList (Res.ok FileType.dir),
     Event.stat "/dev".toList (Res.ok FileType.dir), Event.stat "/proc".toList (Res.ok FileType.dir),
     Event.stat "/run".toList (Res.ok FileType.dir), Event.stat "/tmp".toList (Res.ok FileType.dir)]
    (Event.mount "sysfs".toList "/sys".toList "sysfs".toList 14 [] (some 1)) [] 1
    (by decide!) (by decide!)

end Initrd
